import Mathlib

/-!
# GoUctGlobalSearchState: a shallow embedding

Embedding of the per-thread simulation state and the search controller of
`gouct/GoUctGlobalSearch.h`, and of the list utilities of `smartgame/SgListUtility.cpp`.

Conventions of the embedding.

* In the functions over the state, C++ `float` values (`m_scoreModification`,
  `m_invMaxScore`, `m_mercyRuleResult`, komi and scores) are exact rationals: these functions
  carry the control flow and the integer members, and the theorems about them are about the
  arithmetic the source writes down, before any rounding.
* The `float` statements themselves, the return expressions of `EvaluateBoard` and the
  computation of `m_invMaxScore` in `StartSearch`, are embedded a second time in IEEE 754
  binary32, with round-to-nearest-even on every operation, infinities and NaN
  (`EvaluateBoardFloat`, `StartSearchFloat`).  Every property that depends on a rounding, on
  an infinity or on a NaN is stated and proved over this second embedding.
* C++ `int` members are `Int`; no member of this class is ever near the machine bounds.
* The one `double` computation whose rounding decides an integer, the mercy threshold of
  `GameStart`, is embedded with binary64 round-to-nearest-even products.
* `SG_ASSERT` is compiled out in release builds; the embedding follows the release build and
  the asserted conditions appear, where they matter, as hypotheses of theorems.
* The board, the rules, the scorers, the playout policy and the random generator are
  collaborators whose code is elsewhere.  A board is the record of the answers it gives to the
  queries this header makes; the policy and the generator are answer streams with a position.
-/

namespace GoUct

/-! ## Collaborators -/

/-- A board point (`typedef int SgPoint`). -/
abbrev SgPoint := Int

/-- A move (`SgMove`): a board point or one of the two special constants used by this header. -/
inductive SgMove where
  | point (p : SgPoint)
  | SG_PASS
  | SG_NULLMOVE
  deriving DecidableEq

/-- The two colours. -/
inductive SgBlackWhite where
  | SG_BLACK
  | SG_WHITE
  deriving DecidableEq

/-- Ownership of a point in a scored position. -/
inductive SgEmptyBlackWhite where
  | SG_BLACK
  | SG_WHITE
  | SG_EMPTY
  deriving DecidableEq

/-- A pair of point sets, one per colour (`SgBWSet`), as membership tests. -/
abbrev SgBWSet := SgBlackWhite → SgPoint → Bool

/-- The rule queries made by this header. -/
structure GoRules where
  Komi : ℚ
  CaptureDead : Bool
  AllowSuicide : Bool

/-- A board (`GoBoard` or `GoUctBoard`, the `BOARD` template argument), given by the answers
to the queries of this header.  `points` is the order of `BOARD::Iterator`, `TwoPasses` is
`GoBoardUtil::TwoPasses(bd)`, `IsSimpleEye p c` is `GoEyeUtil::IsSimpleEye(bd, p, c)`,
`AllSize c` is `bd.All(c).Size()`, and the two scorers return the score together with the
per-point ownership they write through `scoreBoardPtr`. -/
structure GoBoard where
  Size : Int
  Rules : GoRules
  ToPlay : SgBlackWhite
  MoveNumber : Int
  TwoPasses : Bool
  points : List SgPoint
  IsEmpty : SgPoint → Bool
  IsLegal : SgPoint → SgBlackWhite → Bool
  IsSimpleEye : SgPoint → SgBlackWhite → Bool
  NuCapturedStones : Int
  AllSize : SgBlackWhite → Int
  TrompTaylorScore : ℚ → ℚ × (SgPoint → SgEmptyBlackWhite)
  ScoreEndPosition : ℚ → SgBWSet → Bool → ℚ × (SgPoint → SgEmptyBlackWhite)

/-- Modelled from the spec: the per-point territory accumulator (`SgUctStatistics`, declared
elsewhere) keeps a running mean of the samples added to it. -/
structure SgUctStatistics where
  m_count : Nat
  m_mean : ℚ

/-- Modelled from the spec: adding a sample to a running mean. -/
def SgUctStatistics.Add (st : SgUctStatistics) (val : ℚ) : SgUctStatistics :=
  { m_count := st.m_count + 1
    m_mean := st.m_mean + (val - st.m_mean) / ((st.m_count + 1 : Nat) : ℚ) }

/-- Modelled from the spec: a cleared accumulator holds no sample. -/
def SgUctStatistics.Clear (_st : SgUctStatistics) : SgUctStatistics :=
  { m_count := 0, m_mean := 0 }

/-- The thread-local random source (`SgRandom`, declared elsewhere): the stream of raw draws
and the number of draws taken so far. -/
structure SgRandom where
  draws : Nat → Nat
  pos : Nat

/-- Modelled from the spec: `m_random.Int(range)` is an index below `range` ("a uniform random
index"); the raw draw is reduced into the range and the stream advances. -/
def SgRandom.Int (r : SgRandom) (range : Nat) : Nat × SgRandom :=
  (r.draws r.pos % range, { r with pos := r.pos + 1 })

/-- The playout policy (`POLICY` template argument): the stream of moves its `GenerateMove`
returns, and how often each of its entry points has been called. -/
structure POLICY where
  moves : Nat → SgMove
  nuGenerateMove : Nat
  nuOnPlay : Nat
  nuStartPlayout : Nat
  nuEndPlayout : Nat

/-- The call `m_policy->GenerateMove()`. -/
def POLICY.GenerateMove (p : POLICY) : SgMove × POLICY :=
  (p.moves p.nuGenerateMove, { p with nuGenerateMove := p.nuGenerateMove + 1 })

/-- The call `m_policy->OnPlay()`. -/
def POLICY.OnPlay (p : POLICY) : POLICY := { p with nuOnPlay := p.nuOnPlay + 1 }

/-- The call `m_policy->StartPlayout()`. -/
def POLICY.StartPlayout (p : POLICY) : POLICY := { p with nuStartPlayout := p.nuStartPlayout + 1 }

/-- The call `m_policy->EndPlayout()`. -/
def POLICY.EndPlayout (p : POLICY) : POLICY := { p with nuEndPlayout := p.nuEndPlayout + 1 }

/-! ## Binary32 arithmetic

The C++ `float` of the source is IEEE 754 binary32.  Every finite binary32 number is a whole
multiple of `2^-149`, so a finite value is kept as that whole number of units: the
numerator `2^149` is 1 and `2^148` is 1/2.  Every operation rounds its exact result to the
nearest binary32 number, ties to the even significand, on its own (no fused multiply-add,
no wider intermediate format).  The sign of a zero is not kept, a zero divisor counts as
positive: the source compares a score with zero, which does not see the sign, and divides
by the sum `size * size + komi` only, which is never a negative zero, its first term being
the conversion of an `int`. -/

/-- A `float` value: the finite value `n * 2^-149`, an infinity with its sign, or a NaN. -/
inductive Binary32 where
  | finite (n : Int)
  | inf (negative : Bool)
  | nan
  deriving DecidableEq

namespace Binary32

/-- The number of low bits a natural number has beyond 24 significant bits (`fuel` bounds the
search and is the number itself where it is used). -/
def excessBits : Nat → Nat → Nat
  | 0, _ => 0
  | fuel + 1, P => if P < 2 ^ 24 then 0 else excessBits fuel (P / 2) + 1

/-- Rounding of the non-negative quotient `A / D`, in units of `2^-149`, to the nearest number
with a 24-bit significand and a quantum of at least one unit (the subnormal range), ties to
the even significand. -/
def roundMagnitude (A D : Nat) : Nat :=
  let sh := excessBits (A / D) (A / D)
  let q := A / (D * 2 ^ sh)
  let r := A % (D * 2 ^ sh)
  if 2 * r > D * 2 ^ sh ∨ (2 * r = D * 2 ^ sh ∧ q % 2 = 1) then (q + 1) * 2 ^ sh else q * 2 ^ sh

/-- Rounding of the exact quotient `A / D`, in units of `2^-149`, in sign and magnitude; a
rounded magnitude of `2^128` or more overflows to the infinity of that sign. -/
def round (A : Int) (D : Nat) : Binary32 :=
  if 2 ^ 128 * 2 ^ 149 ≤ roundMagnitude A.natAbs D then inf (decide (A < 0))
  else finite (Int.sign A * (roundMagnitude A.natAbs D : Int))

/-- The conversion of an `int` to `float`. -/
def ofInt (i : Int) : Binary32 := round (i * 2 ^ 149) 1

/-- The binary32 number nearest to a rational, as a `float` literal or `ToFloat()` gives. -/
def ofRat (q : ℚ) : Binary32 := round (q.num * 2 ^ 149) q.den

/-- Negation. -/
def neg : Binary32 → Binary32
  | finite n => finite (-n)
  | inf b => inf (!b)
  | nan => nan

/-- Addition. -/
def add : Binary32 → Binary32 → Binary32
  | finite a, finite b => round (a + b) 1
  | finite _, inf b => inf b
  | inf a, finite _ => inf a
  | inf a, inf b => if a = b then inf a else nan
  | _, _ => nan

/-- Subtraction. -/
def sub (x y : Binary32) : Binary32 := add x (neg y)

/-- Multiplication; an infinity times zero is a NaN. -/
def mul : Binary32 → Binary32 → Binary32
  | finite a, finite b => round (a * b) (2 ^ 149)
  | finite a, inf b => if a = 0 then nan else inf (xor (decide (a < 0)) b)
  | inf a, finite b => if b = 0 then nan else inf (xor a (decide (b < 0)))
  | inf a, inf b => inf (xor a b)
  | _, _ => nan

/-- Division; a non-zero number divided by zero is an infinity, zero by zero and infinity by
infinity are NaN. -/
def div : Binary32 → Binary32 → Binary32
  | finite a, finite b =>
    if b = 0 then (if a = 0 then nan else inf (decide (a < 0)))
    else round (a * Int.sign b * 2 ^ 149) b.natAbs
  | finite _, inf _ => finite 0
  | inf a, finite b => inf (xor a (decide (b < 0)))
  | _, _ => nan

/-- The comparison `x > y`; false when either is a NaN. -/
def gt : Binary32 → Binary32 → Bool
  | finite a, finite b => decide (b < a)
  | finite _, inf b => b
  | inf a, finite _ => !a
  | inf a, inf b => !a && b
  | _, _ => false

/-- The comparison `x <= y`; false when either is a NaN. -/
def le : Binary32 → Binary32 → Bool
  | finite a, finite b => decide (a ≤ b)
  | finite _, inf b => !b
  | inf a, finite _ => a
  | inf a, inf b => a || !b
  | _, _ => false

end Binary32

/-! ## The state -/

/-- Parameters for `GoUctGlobalSearchState`. -/
structure GoUctGlobalSearchStateParam where
  m_mercyRule : Bool
  m_territoryStatistics : Bool
  m_scoreModification : ℚ

/-- The base class `GoUctState` as far as this header reads it: `Board()`, `UctBoard()` and
`IsInPlayout()`.  Its own member functions are defined elsewhere; where a function of the
derived class calls one, the base part after that call is an argument. -/
structure GoUctState where
  m_bd : GoBoard
  m_uctBd : GoBoard
  m_isInPlayout : Bool

/-- The members of `GoUctGlobalSearchState<POLICY>`. -/
structure GoUctGlobalSearchState extends GoUctState where
  m_safe : SgBWSet
  m_allSafe : SgPoint → Bool
  m_territoryStatistics : SgPoint → SgUctStatistics
  m_param : GoUctGlobalSearchStateParam
  m_mercyRuleTriggered : Bool
  m_passMovesPlayoutPhase : Int
  m_mercyRuleThreshold : Int
  m_stoneDiff : Int
  m_initialMoveNumber : Int
  m_mercyRuleResult : ℚ
  m_invMaxScore : ℚ
  m_random : SgRandom
  m_policy : POLICY

namespace GoUctGlobalSearchState

/-- Source function `CheckMercyRule()`: the returned flag and the state after the call. -/
def CheckMercyRule (s : GoUctGlobalSearchState) : Bool × GoUctGlobalSearchState :=
  if s.m_stoneDiff ≥ s.m_mercyRuleThreshold then
    (true, { s with
      m_mercyRuleTriggered := true
      m_mercyRuleResult := if s.m_uctBd.ToPlay = SgBlackWhite.SG_BLACK then 1 else 0 })
  else if s.m_stoneDiff ≤ -s.m_mercyRuleThreshold then
    (true, { s with
      m_mercyRuleTriggered := true
      m_mercyRuleResult := if s.m_uctBd.ToPlay = SgBlackWhite.SG_WHITE then 1 else 0 })
  else
    (s.m_mercyRuleTriggered, s)

/-- Source function `ClearTerritoryStatistics()`. -/
def ClearTerritoryStatistics (s : GoUctGlobalSearchState) : GoUctGlobalSearchState :=
  { s with m_territoryStatistics := fun p => (s.m_territoryStatistics p).Clear }

/-- The loop of `EvaluateBoard` over the board that feeds the ownership of every point into
the territory statistics. -/
def addTerritory (bd : GoBoard) (scoreBoard : SgPoint → SgEmptyBlackWhite)
    (stats : SgPoint → SgUctStatistics) : SgPoint → SgUctStatistics :=
  bd.points.foldl
    (fun acc p =>
      let sample : ℚ :=
        match scoreBoard p with
        | SgEmptyBlackWhite.SG_BLACK => 1
        | SgEmptyBlackWhite.SG_WHITE => 0
        | SgEmptyBlackWhite.SG_EMPTY => 1 / 2
      fun q => if q = p then (acc p).Add sample else acc q)
    stats

/-- Source function `EvaluateBoard(bd, komi)`: the returned value and the state after the call.  The early
`return m_mercyRuleResult` is the `none` case of `scored`.  The returned value is the exact
value of the `float` expression; `EvaluateBoardFloat` is the same expression in binary32. -/
def EvaluateBoard (s : GoUctGlobalSearchState) (bd : GoBoard) (komi : ℚ) :
    ℚ × GoUctGlobalSearchState :=
  let scored : Option (ℚ × (SgPoint → SgEmptyBlackWhite)) :=
    if s.m_passMovesPlayoutPhase < 2 then
      some (bd.TrompTaylorScore komi)
    else if s.m_param.m_mercyRule && s.m_mercyRuleTriggered then
      none
    else
      some (bd.ScoreEndPosition komi s.m_safe false)
  match scored with
  | none => (s.m_mercyRuleResult, s)
  | some (score, scoreBoard) =>
    let s1 : GoUctGlobalSearchState :=
      if s.m_param.m_territoryStatistics then
        { s with m_territoryStatistics := addTerritory bd scoreBoard s.m_territoryStatistics }
      else s
    let score : ℚ := if bd.ToPlay ≠ SgBlackWhite.SG_BLACK then score * -1 else score
    if score > 0 then
      ((1 - s.m_param.m_scoreModification)
        + s.m_param.m_scoreModification * score * s.m_invMaxScore, s1)
    else
      (s.m_param.m_scoreModification
        + s.m_param.m_scoreModification * score * s.m_invMaxScore, s1)

/-- Source function `Evaluate()`. -/
def Evaluate (s : GoUctGlobalSearchState) : ℚ × GoUctGlobalSearchState :=
  let komi := s.m_bd.Rules.Komi
  if s.m_isInPlayout then EvaluateBoard s s.m_uctBd komi
  else EvaluateBoard s s.m_bd komi

/-- Source function `ExecutePlayout(move)`; `base` is the base part after `GoUctState::ExecutePlayout(move)`
has played the move on the playout board. -/
def ExecutePlayout (s : GoUctGlobalSearchState) (_move : SgMove) (base : GoUctState) :
    GoUctGlobalSearchState :=
  let bd := base.m_uctBd
  { s with
    toGoUctState := base
    m_stoneDiff :=
      if bd.ToPlay = SgBlackWhite.SG_BLACK then s.m_stoneDiff - bd.NuCapturedStones
      else s.m_stoneDiff + bd.NuCapturedStones
    m_policy := s.m_policy.OnPlay }

/-- The exchange `std::swap(moves[0], moves[r])`. -/
def swapFront (moves : List SgMove) (r : Nat) : List SgMove :=
  match moves[0]?, moves[r]? with
  | some a, some b => (moves.set 0 b).set r a
  | _, _ => moves

/-- The condition under which `GenerateAllMoves` pushes the point `p`. -/
def isCandidate (s : GoUctGlobalSearchState) (p : SgPoint) : Bool :=
  s.m_bd.IsEmpty p
    && !s.m_bd.IsSimpleEye p s.m_bd.ToPlay
    && !s.m_allSafe p
    && s.m_bd.IsLegal p s.m_bd.ToPlay

/-- Source function `GenerateAllMoves(moves)`: the vector after the call and the state after the call (the
random generator may have advanced). -/
def GenerateAllMoves (s : GoUctGlobalSearchState) (moves : List SgMove) :
    List SgMove × GoUctGlobalSearchState :=
  let bd := s.m_bd
  if bd.TwoPasses
      && (bd.Rules.CaptureDead || decide (bd.MoveNumber - s.m_initialMoveNumber ≥ 2)) then
    (moves, s)
  else
    let moves1 := bd.points.foldl
      (fun acc p => if isCandidate s p then acc ++ [SgMove.point p] else acc) moves
    if moves1.length > 1 then
      let (r, rnd) := s.m_random.Int moves1.length
      (swapFront moves1 r ++ [SgMove.SG_PASS], { s with m_random := rnd })
    else
      (moves1 ++ [SgMove.SG_PASS], s)

/-- Source function `GeneratePlayoutMove(skipRaveUpdate)`: the returned move, the value of the reference
argument `skipRaveUpdate` after the call, and the state after the call. -/
def GeneratePlayoutMove (s : GoUctGlobalSearchState) (skipRaveUpdate : Bool) :
    SgMove × Bool × GoUctGlobalSearchState :=
  let checked : Bool × GoUctGlobalSearchState :=
    if s.m_param.m_mercyRule then CheckMercyRule s else (false, s)
  if checked.1 then
    (SgMove.SG_NULLMOVE, skipRaveUpdate, checked.2)
  else
    let s1 := checked.2
    let (move, policy) := s1.m_policy.GenerateMove
    let s2 : GoUctGlobalSearchState := { s1 with m_policy := policy }
    if move = SgMove.SG_PASS then
      if s2.m_passMovesPlayoutPhase < 2 then
        (move, true, { s2 with m_passMovesPlayoutPhase := s2.m_passMovesPlayoutPhase + 1 })
      else
        (SgMove.SG_NULLMOVE, true, s2)
    else
      (move, skipRaveUpdate, { s2 with m_passMovesPlayoutPhase := 0 })

/-- Source function `EndPlayout()`; `base` is the base part after `GoUctState::EndPlayout()`. -/
def EndPlayout (s : GoUctGlobalSearchState) (base : GoUctState) : GoUctGlobalSearchState :=
  { s with toGoUctState := base, m_policy := s.m_policy.EndPlayout }

/-- Source function `StartPlayout()`; `base` is the base part after `GoUctState::StartPlayout()`. -/
def StartPlayout (s : GoUctGlobalSearchState) (base : GoUctState) : GoUctGlobalSearchState :=
  { s with
    toGoUctState := base
    m_passMovesPlayoutPhase := 0
    m_mercyRuleTriggered := false
    m_stoneDiff := base.m_bd.AllSize SgBlackWhite.SG_BLACK - base.m_bd.AllSize SgBlackWhite.SG_WHITE
    m_policy := s.m_policy.StartPlayout }

/-- Source function `StartSearch()`; `base` is the base part after `GoUctState::StartSearch()`.
The member `m_invMaxScore` gets the exact value of the `float` expression; `StartSearchFloat`
is the same expression in binary32. -/
def StartSearch (s : GoUctGlobalSearchState) (base : GoUctState) : GoUctGlobalSearchState :=
  let bd := base.m_bd
  let size := bd.Size
  let maxScore : ℚ := ((size * size : Int) : ℚ) + bd.Rules.Komi
  ClearTerritoryStatistics { s with
    toGoUctState := base
    m_invMaxScore := 1 / maxScore
    m_initialMoveNumber := bd.MoveNumber }

/-- The `double` literal `0.3`, as its numerator over `2^54`: binary64 has no 3/10, the
nearest value is `5404319552844595 / 2^54`.  Every `double` that `GameStart` computes is
zero or at least 1/4 in magnitude, hence an integer multiple of `2^-54`, and is kept as
that integer. -/
def doubleThreeTenths : Int := 5404319552844595

/-- The number of low bits a natural number has beyond 53 significant bits (`fuel` bounds the
search and is the number itself where it is used). -/
def dropBits : Nat → Nat → Nat
  | 0, _ => 0
  | fuel + 1, P => if P < 2 ^ 53 then 0 else dropBits fuel (P / 2) + 1

/-- Rounding of an exact product to the 53-bit significand of binary64, to nearest, ties to
the even significand. -/
def roundSignificand (P : Nat) : Nat :=
  let sh := dropBits P P
  let q := P / 2 ^ sh
  let r := P % 2 ^ sh
  if 2 * r > 2 ^ sh ∨ (2 * r = 2 ^ sh ∧ q % 2 = 1) then (q + 1) * 2 ^ sh else q * 2 ^ sh

/-- The `double` product `x * n` of a `double` `x` (numerator over `2^54`) and an `int` `n`
(converted exactly): the exact product, rounded in sign and magnitude. -/
def mulDouble (x : Int) (n : Int) : Int :=
  Int.sign (x * n) * (roundSignificand (x * n).natAbs : Int)

/-- The conversion `static_cast<int>` of a `double` (numerator over `2^54`): truncation
towards zero. -/
def truncToInt (x : Int) : Int :=
  Int.sign x * ((x.natAbs / 2 ^ 54 : Nat) : Int)

/-- Source function `GameStart()`; `base` is the base part after `GoUctState::GameStart()`.
The threshold is `static_cast<int>(0.3 * size * size)`, evaluated left to right in
`double`. -/
def GameStart (s : GoUctGlobalSearchState) (base : GoUctState) : GoUctGlobalSearchState :=
  let size := base.m_bd.Size
  { s with
    toGoUctState := base
    m_mercyRuleThreshold := truncToInt (mulDouble (mulDouble doubleThreeTenths size) size) }

/-- The `float` statements of `EvaluateBoard` in binary32 (the statements after the scorer
has returned `score`, when the early mercy return is not taken): `score *= -1` unless Black
is to play, then `(1 - k) + k * score * invMaxScore` if `score > 0` and
`k + k * score * invMaxScore` otherwise, with `k = m_param.m_scoreModification` and
`inv = m_invMaxScore`, evaluated left to right with one rounding per operation. -/
def EvaluateBoardFloat (k inv : Binary32) (toPlay : SgBlackWhite) (score : Binary32) :
    Binary32 :=
  let score : Binary32 :=
    if toPlay ≠ SgBlackWhite.SG_BLACK then Binary32.mul score (Binary32.ofInt (-1)) else score
  if Binary32.gt score (Binary32.ofInt 0) then
    Binary32.add (Binary32.sub (Binary32.ofInt 1) k) (Binary32.mul (Binary32.mul k score) inv)
  else
    Binary32.add k (Binary32.mul (Binary32.mul k score) inv)

/-- The `float` statements of `StartSearch` in binary32: `maxScore = size * size + komi`, the
product in `int` and the sum in `float`, and the value `1 / maxScore` stored to
`m_invMaxScore`. -/
def StartSearchFloat (size : Int) (komi : Binary32) : Binary32 :=
  let maxScore : Binary32 := Binary32.add (Binary32.ofInt (size * size)) komi
  Binary32.div (Binary32.ofInt 1) maxScore

/-! ## Quantities named by the specification -/

/-- The condition of the first `if` of `GeneratePlayoutMove`: the mercy rule is enabled and
`CheckMercyRule()` answers true. -/
def mercyTriggers (s : GoUctGlobalSearchState) : Bool :=
  s.m_param.m_mercyRule && (CheckMercyRule s).1

/-- The board `Evaluate` hands to `EvaluateBoard`. -/
def evalBoard (s : GoUctGlobalSearchState) : GoBoard :=
  if s.m_isInPlayout then s.m_uctBd else s.m_bd

/-- The signed score "from the side to move's perspective" of the position `Evaluate` scores:
the Black-positive score of the scorer selected by the pass counter, negated when White is to
move. -/
def evalScore (s : GoUctGlobalSearchState) : ℚ :=
  let bd := evalBoard s
  let raw : ℚ :=
    if s.m_passMovesPlayoutPhase < 2 then (bd.TrompTaylorScore s.m_bd.Rules.Komi).1
    else (bd.ScoreEndPosition s.m_bd.Rules.Komi s.m_safe false).1
  if bd.ToPlay = SgBlackWhite.SG_BLACK then raw else -raw

/-- Reference definition of `Evaluate` in the words of the specification (mercy rule not
triggered): the raw score is the full-board Tromp-Taylor score when the pass counter is below
2 and the safety-aware end-position score when it is 2; `s` is the raw score seen from the
side to move; the value is `(1 - k) + k*s*invMaxScore` for `s > 0` and
`k + k*s*invMaxScore` otherwise.  The words cover no other value of the counter. -/
def EvaluateReference (s : GoUctGlobalSearchState) : Option ℚ :=
  let bd := if s.m_isInPlayout then s.m_uctBd else s.m_bd
  let komi := s.m_bd.Rules.Komi
  let k := s.m_param.m_scoreModification
  let value (raw : ℚ) : ℚ :=
    let sc : ℚ := if bd.ToPlay = SgBlackWhite.SG_BLACK then raw else -raw
    if sc > 0 then (1 - k) + k * sc * s.m_invMaxScore else k + k * sc * s.m_invMaxScore
  if s.m_passMovesPlayoutPhase < 2 then
    some (value (bd.TrompTaylorScore komi).1)
  else if s.m_passMovesPlayoutPhase = 2 then
    some (value (bd.ScoreEndPosition komi s.m_safe false).1)
  else
    none

/-! ## Sequences of calls by the tree-search driver -/

/-- A call the driver makes on a state during a playout, with what the collaborators answer
during it: the base part after the base-class call for `ExecutePlayout` and `EndPlayout`. -/
inductive PlayoutCall where
  | generatePlayoutMove (skipRaveUpdate : Bool)
  | executePlayout (move : SgMove) (base : GoUctState)
  | evaluate
  | endPlayout (base : GoUctState)

/-- What a call hands back to the driver: the move and the flag of `GeneratePlayoutMove`, the
value of `Evaluate`, or nothing. -/
inductive PlayoutAnswer where
  | move (m : SgMove) (skipRaveUpdate : Bool)
  | value (v : ℚ)
  | nothing

/-- One call on a state: its answer and the state after it. -/
def runCall (s : GoUctGlobalSearchState) : PlayoutCall → PlayoutAnswer × GoUctGlobalSearchState
  | PlayoutCall.generatePlayoutMove f =>
    (PlayoutAnswer.move (GeneratePlayoutMove s f).1 (GeneratePlayoutMove s f).2.1,
      (GeneratePlayoutMove s f).2.2)
  | PlayoutCall.executePlayout m base => (PlayoutAnswer.nothing, ExecutePlayout s m base)
  | PlayoutCall.evaluate => (PlayoutAnswer.value (Evaluate s).1, (Evaluate s).2)
  | PlayoutCall.endPlayout base => (PlayoutAnswer.nothing, EndPlayout s base)

/-- A sequence of calls on a state: the answers in order and the final state. -/
def runCalls (s : GoUctGlobalSearchState) :
    List PlayoutCall → List PlayoutAnswer × GoUctGlobalSearchState
  | [] => ([], s)
  | c :: cs => ((runCall s c).1 :: (runCalls (runCall s c).2 cs).1,
      (runCalls (runCall s c).2 cs).2)

/-- Modelled from the spec: one round of the playout loop of the tree-search driver ("repeat
GeneratePlayoutMove / ExecutePlayout"): ask for a move, stop on the no-move signal (`none`),
otherwise execute the move.  `play b m` is the base part that
`GoUctState::ExecutePlayout(m)` produces from the base part `b`, i.e. the rules engine. -/
def playoutRound (play : GoUctState → SgMove → GoUctState) (s : GoUctGlobalSearchState) :
    Option GoUctGlobalSearchState :=
  if (GeneratePlayoutMove s false).1 = SgMove.SG_NULLMOVE then none
  else
    some (ExecutePlayout (GeneratePlayoutMove s false).2.2 (GeneratePlayoutMove s false).1
      (play (GeneratePlayoutMove s false).2.2.toGoUctState (GeneratePlayoutMove s false).1))

/-- Modelled from the spec: the playout loop run for at most `fuel` rounds: the number of
plies executed before the no-move signal, or `none` when the signal has not come within
`fuel` calls of `GeneratePlayoutMove`. -/
def playoutLoop (play : GoUctState → SgMove → GoUctState) :
    Nat → GoUctGlobalSearchState → Option Nat
  | 0, _ => none
  | fuel + 1, s =>
    match playoutRound play s with
    | none => some 0
    | some s1 => (playoutLoop play fuel s1).map (fun n => n + 1)

/-- The states the playout loop passes through from `s0`. -/
inductive PlayoutReaches (play : GoUctState → SgMove → GoUctState)
    (s0 : GoUctGlobalSearchState) : GoUctGlobalSearchState → Prop where
  | start : PlayoutReaches play s0 s0
  | round {s s1 : GoUctGlobalSearchState} :
      PlayoutReaches play s0 s → playoutRound play s = some s1 → PlayoutReaches play s0 s1

end GoUctGlobalSearchState

/-! ## The search controller -/

/-- Compile-time constant of the header: the safety solver is not used. -/
def GOUCT_USE_SAFETY_SOLVER : Bool := false

/-- What `OnSearchIteration` writes to `SgDebug()`, piece by piece. -/
inductive DebugOutput where
  | goguiGfxHeader
  | GfxBestMove
  | GfxTerritoryStatistics
  | GfxStatus
  | newline
  deriving DecidableEq

/-- What `OnStartSearch` writes to `SgWarning()`. -/
inductive WarningOutput where
  | liveGfxNeedsTerritoryStatistics
  deriving DecidableEq

/-- The members of `GoUctGlobalSearch<POLICY,FACTORY>` read by the two callbacks, the board
and the live-graphics interval of the base class `GoUctSearch`, and the two output streams
as the lists of what has been written to them. -/
structure GoUctGlobalSearch where
  m_param : GoUctGlobalSearchStateParam
  m_safe : SgBWSet
  m_allSafe : SgPoint → Bool
  m_globalSearchLiveGfx : Bool
  m_bd : GoBoard
  LiveGfxInterval : Nat
  debug : List DebugOutput
  warning : List WarningOutput

namespace GoUctGlobalSearch

/-- Source function `OnStartSearch()`, after the base-class call; `solverSafe` is what
`GoSafetySolver::FindSafePoints` would find. -/
def OnStartSearch (g : GoUctGlobalSearch) (solverSafe : SgBWSet) : GoUctGlobalSearch :=
  let g1 : GoUctGlobalSearch :=
    { g with m_safe := fun _ _ => false, m_allSafe := fun _ => false }
  let g2 : GoUctGlobalSearch :=
    if GOUCT_USE_SAFETY_SOLVER then
      { g1 with
        m_safe := solverSafe
        m_allSafe := fun p =>
          if p ∈ g1.m_bd.points then
            solverSafe SgBlackWhite.SG_BLACK p || solverSafe SgBlackWhite.SG_WHITE p
          else g1.m_allSafe p }
    else g1
  if g2.m_globalSearchLiveGfx && !g2.m_param.m_territoryStatistics then
    { g2 with warning := g2.warning ++ [WarningOutput.liveGfxNeedsTerritoryStatistics] }
  else g2

/-- Source function `OnSearchIteration(gameNumber, threadId, info)`, after the base-class
call. -/
def OnSearchIteration (g : GoUctGlobalSearch) (gameNumber : Nat) (threadId : Int) :
    GoUctGlobalSearch :=
  if g.m_globalSearchLiveGfx && decide (threadId = 0)
      && decide (gameNumber % g.LiveGfxInterval = 0) then
    { g with debug := g.debug ++
        [DebugOutput.goguiGfxHeader, DebugOutput.GfxBestMove,
         DebugOutput.GfxTerritoryStatistics, DebugOutput.GfxStatus, DebugOutput.newline] }
  else g

end GoUctGlobalSearch

/-! ## The list utilities of `SgListUtility.cpp` -/

/-- Modelled from the spec: the low-level list container `SgList<int>`, declared outside
these sources, as the list of its elements in iteration order. -/
abbrev SgList := List Int

/-- Modelled from the spec: `Push` adds an element at the front of the list. -/
def SgList.Push (l : SgList) (elt : Int) : SgList := elt :: l

/-- Modelled from the spec: `Append` adds an element at the end of the list. -/
def SgList.Append (l : SgList) (elt : Int) : SgList := l ++ [elt]

/-- Modelled from the spec: `Contains` tells whether an element occurs in the list. -/
def SgList.Contains (l : SgList) (elt : Int) : Bool := decide (elt ∈ l)

/-- Modelled from the spec: `Top` is the first element (of a non-empty list). -/
def SgList.Top (l : SgList) : Option Int := l.head?

/-- Modelled from the spec: `Tail` is the last element (of a non-empty list). -/
def SgList.Tail (l : SgList) : Option Int := l.getLast?

/-- Modelled from the spec: `NonEmpty` tells whether the list has an element. -/
def SgList.NonEmpty (l : SgList) : Bool := !l.isEmpty

namespace SgListUtility

/-- Source function `SgListUtility::Intersection(list, list2)`: the content of `*list` after
the call (it takes the content of `newList` by `SwapWith`) and `list2`, which the function
takes by reference to const. -/
def Intersection (list list2 : SgList) : SgList × SgList :=
  let newList : SgList :=
    list.foldl
      (fun newList elt => if SgList.Contains list2 elt then SgList.Append newList elt else newList)
      []
  (newList, list2)

/-- The loop of `SgListUtility::Reverse`: every element of the list, in iteration order,
pushed on `rev`. -/
def pushAll (list : SgList) : SgList :=
  list.foldl (fun rev elt => SgList.Push rev elt) []

/-- Source function `SgListUtility::Reverse(list)`: the content of `*list` after the call. -/
def Reverse (list : SgList) : SgList :=
  let rev := pushAll list
  if SgList.NonEmpty rev then rev else list

/-- The two `SG_ASSERT`s of `SgListUtility::Reverse`, checked between the loop and
`SwapWith`: the first element of the list is the last of `rev`, and the last element of the
list is the first of `rev`. -/
def ReverseAsserts (list : SgList) : Bool :=
  decide (SgList.Top list = SgList.Tail (pushAll list))
    && decide (SgList.Tail list = SgList.Top (pushAll list))

end SgListUtility

/-! ## Example positions and states -/

/-- An ownership map that leaves every point neutral. -/
def exampleOwner : SgPoint → SgEmptyBlackWhite := fun _ => SgEmptyBlackWhite.SG_EMPTY

/-- A position given by its answers: points numbered `0 .. size*size - 1` in iteration order,
the first `black` of them black stones, the next `white` white stones, the others empty and
legal for both sides, no simple eye, nothing captured by the last move, and both scorers
returning `score`. -/
def exampleBoard (size : Nat) (komi : ℚ) (toPlay : SgBlackWhite) (twoPasses captureDead : Bool)
    (moveNumber : Int) (black white : Nat) (score : ℚ) : GoBoard where
  Size := size
  Rules := { Komi := komi, CaptureDead := captureDead, AllowSuicide := false }
  ToPlay := toPlay
  MoveNumber := moveNumber
  TwoPasses := twoPasses
  points := (List.range (size * size)).map Int.ofNat
  IsEmpty := fun p => decide (((black + white : Nat) : Int) ≤ p)
  IsLegal := fun p _ => decide (((black + white : Nat) : Int) ≤ p)
  IsSimpleEye := fun _ _ => false
  NuCapturedStones := 0
  AllSize := fun c => match c with
    | SgBlackWhite.SG_BLACK => black
    | SgBlackWhite.SG_WHITE => white
  TrompTaylorScore := fun _ => (score, exampleOwner)
  ScoreEndPosition := fun _ _ _ => (score, exampleOwner)

/-- A policy that answers every `GenerateMove` with a pass and has not been called yet. -/
def passPolicy : POLICY where
  moves := fun _ => SgMove.SG_PASS
  nuGenerateMove := 0
  nuOnPlay := 0
  nuStartPlayout := 0
  nuEndPlayout := 0

/-- A state in the playout phase of the position `bd`, with the given parameters, pass
counter, mercy threshold, stone differential and `m_invMaxScore`; the mercy rule has not
triggered, nothing is known to be safe, the statistics are clear. -/
def exampleState (bd : GoBoard) (inPlayout : Bool) (param : GoUctGlobalSearchStateParam)
    (passes threshold diff : Int) (invMaxScore : ℚ) : GoUctGlobalSearchState where
  m_bd := bd
  m_uctBd := bd
  m_isInPlayout := inPlayout
  m_safe := fun _ _ => false
  m_allSafe := fun _ => false
  m_territoryStatistics := fun _ => { m_count := 0, m_mean := 0 }
  m_param := param
  m_mercyRuleTriggered := false
  m_passMovesPlayoutPhase := passes
  m_mercyRuleThreshold := threshold
  m_stoneDiff := diff
  m_initialMoveNumber := 0
  m_mercyRuleResult := 0
  m_invMaxScore := invMaxScore
  m_random := { draws := fun i => 7 * i + 5, pos := 0 }
  m_policy := passPolicy

/-- Mercy rule on, no territory statistics, score modification 0.02 (the default). -/
def mercyParam : GoUctGlobalSearchStateParam :=
  { m_mercyRule := true, m_territoryStatistics := false, m_scoreModification := 1 / 50 }

/-- Mercy rule off, no territory statistics, score modification `k`. -/
def plainParam (k : ℚ) : GoUctGlobalSearchStateParam :=
  { m_mercyRule := false, m_territoryStatistics := false, m_scoreModification := k }

/-- A 9x9 playout position with 30 black and 6 white stones, Black to move, whose full-board
score is `-3` for Black; the mercy threshold is 24 and the stone differential 24. -/
def mercyExample : GoUctGlobalSearchState :=
  exampleState (exampleBoard 9 0 SgBlackWhite.SG_BLACK false false 40 30 6 (-3))
    true mercyParam 0 24 24 (1 / 81)

/-- A 9x9 playout state on the empty board, mercy rule off, whose policy always passes. -/
def passExample : GoUctGlobalSearchState :=
  exampleState (exampleBoard 9 0 SgBlackWhite.SG_BLACK false false 0 0 0 0)
    true (plainParam (1 / 50)) 0 24 0 (1 / 81)

/-- An in-tree 9x9 state whose last two plies were passes (move number 2, search root at move
number 0) under rules that require capturing dead stones; the board is otherwise empty. -/
def doublePassExample : GoUctGlobalSearchState :=
  exampleState (exampleBoard 9 0 SgBlackWhite.SG_BLACK true true 2 0 0 0)
    false (plainParam (1 / 50)) 0 24 0 (1 / 81)

/-- The same position under rules without dead-stone capture, the search having started
after the two passes (search root at move number 2). -/
def doublePassAtRootExample : GoUctGlobalSearchState :=
  { exampleState (exampleBoard 9 0 SgBlackWhite.SG_BLACK true false 2 0 0 0)
      false (plainParam (1 / 50)) 0 24 0 (1 / 81) with m_initialMoveNumber := 2 }

/-- An in-tree 9x9 state with komi -5.5, a single black stone on the board (so the full-board
area score is 81 for Black, 86.5 after komi) and Black to move; `m_invMaxScore` is still to be
set by `StartSearch`. -/
def negativeKomiExample : GoUctGlobalSearchState :=
  exampleState (exampleBoard 9 (-11 / 2) SgBlackWhite.SG_BLACK false false 2 1 0 (173 / 2))
    false (plainParam (1 / 50)) 0 24 0 0

/-- An in-tree 9x9 state with komi 0, `m_invMaxScore = 1/81`, score modification `k`, mercy
rule off and Black to move, on a position with the given numbers of stones whose full-board
score is `score`. -/
def scoreExample (k : ℚ) (black white : Nat) (score : ℚ) : GoUctGlobalSearchState :=
  exampleState (exampleBoard 9 0 SgBlackWhite.SG_BLACK false false 40 black white score)
    false (plainParam k) 0 24 0 (1 / 81)

/-- A playout state on a 1x1 board, where 30% of the area rounds down to the mercy threshold
0: mercy rule on, stone differential 0, Black to move. -/
def zeroThresholdExample : GoUctGlobalSearchState :=
  exampleState (exampleBoard 1 0 SgBlackWhite.SG_BLACK false false 0 0 0 0)
    true mercyParam 0 0 0 1

/-- A 9x9 playout state with the mercy rule on (threshold 24), the given numbers of stones,
the stone differential that belongs to them, and the given side to move. -/
def mercyState (black white : Nat) (toPlay : SgBlackWhite) : GoUctGlobalSearchState :=
  exampleState (exampleBoard 9 0 toPlay false false 40 black white 0)
    true mercyParam 0 24 ((black : Int) - (white : Int)) (1 / 81)

/-- The in-tree state on the empty 9x9 board with komi 0, Black to move, no move played. -/
def emptyBoardExample : GoUctGlobalSearchState :=
  exampleState (exampleBoard 9 0 SgBlackWhite.SG_BLACK false false 0 0 0 0)
    false (plainParam (1 / 50)) 0 24 0 (1 / 81)

/-- The base part after Black has played a first, non-capturing stone on the empty 9x9 board
of `passExample`: one black stone, no white stone, nothing captured, White to move. -/
def oneStoneBase : GoUctState where
  m_bd := passExample.m_bd
  m_uctBd := exampleBoard 9 0 SgBlackWhite.SG_WHITE false false 1 1 0 0
  m_isInPlayout := true

/-- A search controller with live graphics requested and territory statistics off, a live
graphics interval of 5000 games, nothing written yet. -/
def liveGfxExample : GoUctGlobalSearch where
  m_param := { m_mercyRule := true, m_territoryStatistics := false
               m_scoreModification := 1 / 50 }
  m_safe := fun _ _ => true
  m_allSafe := fun _ => true
  m_globalSearchLiveGfx := true
  m_bd := exampleBoard 9 0 SgBlackWhite.SG_BLACK false false 0 0 0 0
  LiveGfxInterval := 5000
  debug := []
  warning := []

/-- A playout state on the empty 9x9 board (mercy rule off) whose policy answers the point 40
on its first call and passes ever after. -/
def onePointExample : GoUctGlobalSearchState :=
  { passExample with
    m_policy := { passPolicy with
      moves := fun i => if i = 0 then SgMove.point 40 else SgMove.SG_PASS } }

/-- A rules engine for the examples: a move on a point raises the move number of the playout
board by one, a pass changes nothing. -/
def countingPlay (b : GoUctState) : SgMove → GoUctState
  | SgMove.point _ => { b with m_uctBd := { b.m_uctBd with MoveNumber := b.m_uctBd.MoveNumber + 1 } }
  | _ => b

/-- A rank for the examples: one move is left while the move number of the playout board is
0, none afterwards. -/
def countingRank (b : GoUctState) : Nat :=
  if b.m_uctBd.MoveNumber = 0 then 1 else 0

/-! ## Theorems -/

namespace GoUctGlobalSearchState

/-- C1 (evaluation at the failing input): on a 9x9 playout state with the mercy rule enabled,
pass counter 0, threshold 24 and stone differential 24 with Black to move,
`GeneratePlayoutMove` triggers the mercy rule (it returns `SG_NULLMOVE`, sets the flag and
latches the result 1), and the following `Evaluate` does not return the latched result: it
returns the value 13/675 computed from the Tromp-Taylor score `-3`. -/
theorem mercy_latch_not_returned_below_two_passes :
    (GeneratePlayoutMove mercyExample false).1 = SgMove.SG_NULLMOVE
    ∧ (GeneratePlayoutMove mercyExample false).2.2.m_mercyRuleTriggered = true
    ∧ (GeneratePlayoutMove mercyExample false).2.2.m_mercyRuleResult = 1
    ∧ (GeneratePlayoutMove mercyExample false).2.2.m_passMovesPlayoutPhase = 0
    ∧ (Evaluate (GeneratePlayoutMove mercyExample false).2.2).1 = 13 / 675
    ∧ (Evaluate (GeneratePlayoutMove mercyExample false).2.2).1
        ≠ (GeneratePlayoutMove mercyExample false).2.2.m_mercyRuleResult := by
  simp [GeneratePlayoutMove, CheckMercyRule, Evaluate, EvaluateBoard, mercyExample,
    exampleState, exampleBoard, mercyParam]
  norm_num

/-! ### Pass accounting -/

/-- When the mercy rule does not trigger, the mercy check of `GeneratePlayoutMove` answers
false and leaves the state alone. -/
theorem check_of_not_mercyTriggers (s : GoUctGlobalSearchState)
    (hq : mercyTriggers s = false) :
    (if s.m_param.m_mercyRule then CheckMercyRule s else (false, s)) = (false, s) := by
  unfold mercyTriggers at hq
  cases hm : s.m_param.m_mercyRule with
  | false => simp
  | true =>
    rw [hm] at hq
    simp only [Bool.true_and] at hq
    simp only [if_true]
    unfold CheckMercyRule at hq ⊢
    by_cases h1 : s.m_stoneDiff ≥ s.m_mercyRuleThreshold
    · simp [h1] at hq
    · by_cases h2 : s.m_stoneDiff ≤ -s.m_mercyRuleThreshold
      · simp [h1, h2] at hq
      · simp only [h1, h2, if_false] at hq ⊢
        rw [hq]

/-- One call of `GeneratePlayoutMove` in which the mercy rule does not trigger and the policy
passes: below two counted passes the pass is returned and counted, otherwise `SG_NULLMOVE`
is returned; the policy has been asked once. -/
theorem GeneratePlayoutMove_pass (s : GoUctGlobalSearchState) (f : Bool)
    (hq : mercyTriggers s = false)
    (hp : s.m_policy.moves s.m_policy.nuGenerateMove = SgMove.SG_PASS) :
    (s.m_passMovesPlayoutPhase < 2 →
      (GeneratePlayoutMove s f).1 = SgMove.SG_PASS
      ∧ (GeneratePlayoutMove s f).2.2.m_passMovesPlayoutPhase = s.m_passMovesPlayoutPhase + 1)
    ∧ (¬ s.m_passMovesPlayoutPhase < 2 → (GeneratePlayoutMove s f).1 = SgMove.SG_NULLMOVE)
    ∧ (GeneratePlayoutMove s f).2.2.m_policy.moves = s.m_policy.moves
    ∧ (GeneratePlayoutMove s f).2.2.m_policy.nuGenerateMove = s.m_policy.nuGenerateMove + 1 := by
  have hc := check_of_not_mercyTriggers s hq
  unfold GeneratePlayoutMove
  simp only [hc, POLICY.GenerateMove, hp]
  by_cases h : s.m_passMovesPlayoutPhase < 2 <;> simp [h]

/-- The function `ExecutePlayout` leaves the pass counter and the answers of the policy alone. -/
theorem ExecutePlayout_frame (s : GoUctGlobalSearchState) (m : SgMove) (base : GoUctState) :
    (ExecutePlayout s m base).m_passMovesPlayoutPhase = s.m_passMovesPlayoutPhase
    ∧ (ExecutePlayout s m base).m_policy.moves = s.m_policy.moves
    ∧ (ExecutePlayout s m base).m_policy.nuGenerateMove = s.m_policy.nuGenerateMove :=
  ⟨rfl, rfl, rfl⟩

/-- The function `StartPlayout` resets the pass counter and leaves the answers of the policy alone. -/
theorem StartPlayout_frame (s : GoUctGlobalSearchState) (base : GoUctState) :
    (StartPlayout s base).m_passMovesPlayoutPhase = 0
    ∧ (StartPlayout s base).m_policy.moves = s.m_policy.moves
    ∧ (StartPlayout s base).m_policy.nuGenerateMove = s.m_policy.nuGenerateMove :=
  ⟨rfl, rfl, rfl⟩

/-- C2 (counterexample): after `StartPlayout`, mercy rule off and the policy passing, the
second call of `GeneratePlayoutMove` brings the pass counter to 2 and returns `SG_PASS`, not
`SG_NULLMOVE`. -/
theorem pass_accounting_second_pass_is_returned :
    (GeneratePlayoutMove (StartPlayout passExample passExample.toGoUctState) false).1
        = SgMove.SG_PASS
    ∧ (GeneratePlayoutMove
        (ExecutePlayout
          (GeneratePlayoutMove (StartPlayout passExample passExample.toGoUctState) false).2.2
          SgMove.SG_PASS passExample.toGoUctState) false).2.2.m_passMovesPlayoutPhase = 2
    ∧ (GeneratePlayoutMove
        (ExecutePlayout
          (GeneratePlayoutMove (StartPlayout passExample passExample.toGoUctState) false).2.2
          SgMove.SG_PASS passExample.toGoUctState) false).1 ≠ SgMove.SG_NULLMOVE := by
  simp [GeneratePlayoutMove, StartPlayout, ExecutePlayout, passExample, exampleState,
    plainParam, passPolicy, POLICY.GenerateMove, POLICY.OnPlay, POLICY.StartPlayout]

/-- C2 (amended): starting from `StartPlayout`, with the mercy rule not triggering at any of
the three calls and the policy passing three times in direct sequence (each returned move
being executed before the next call), `GeneratePlayoutMove` returns the first pass
(counter 1), returns the second pass (counter 2), and returns `SG_NULLMOVE` on the third
call, the first one in which the policy passes while the counter is already 2. -/
theorem pass_accounting (s : GoUctGlobalSearchState) (base0 base1 base2 : GoUctState)
    (f1 f2 f3 : Bool)
    (hp : ∀ i, i < 3 → s.m_policy.moves (s.m_policy.nuGenerateMove + i) = SgMove.SG_PASS)
    (h1 : mercyTriggers (StartPlayout s base0) = false)
    (h2 : mercyTriggers
      (ExecutePlayout (GeneratePlayoutMove (StartPlayout s base0) f1).2.2
        (GeneratePlayoutMove (StartPlayout s base0) f1).1 base1) = false)
    (h3 : mercyTriggers
      (ExecutePlayout
        (GeneratePlayoutMove
          (ExecutePlayout (GeneratePlayoutMove (StartPlayout s base0) f1).2.2
            (GeneratePlayoutMove (StartPlayout s base0) f1).1 base1) f2).2.2
        (GeneratePlayoutMove
          (ExecutePlayout (GeneratePlayoutMove (StartPlayout s base0) f1).2.2
            (GeneratePlayoutMove (StartPlayout s base0) f1).1 base1) f2).1 base2) = false) :
    (GeneratePlayoutMove (StartPlayout s base0) f1).1 = SgMove.SG_PASS
    ∧ (GeneratePlayoutMove (StartPlayout s base0) f1).2.2.m_passMovesPlayoutPhase = 1
    ∧ (GeneratePlayoutMove
        (ExecutePlayout (GeneratePlayoutMove (StartPlayout s base0) f1).2.2
          (GeneratePlayoutMove (StartPlayout s base0) f1).1 base1) f2).1 = SgMove.SG_PASS
    ∧ (GeneratePlayoutMove
        (ExecutePlayout (GeneratePlayoutMove (StartPlayout s base0) f1).2.2
          (GeneratePlayoutMove (StartPlayout s base0) f1).1 base1) f2).2.2.m_passMovesPlayoutPhase
        = 2
    ∧ (GeneratePlayoutMove
        (ExecutePlayout
          (GeneratePlayoutMove
            (ExecutePlayout (GeneratePlayoutMove (StartPlayout s base0) f1).2.2
              (GeneratePlayoutMove (StartPlayout s base0) f1).1 base1) f2).2.2
          (GeneratePlayoutMove
            (ExecutePlayout (GeneratePlayoutMove (StartPlayout s base0) f1).2.2
              (GeneratePlayoutMove (StartPlayout s base0) f1).1 base1) f2).1 base2) f3).1
        = SgMove.SG_NULLMOVE := by
  obtain ⟨c0, m0, n0⟩ := StartPlayout_frame s base0
  generalize StartPlayout s base0 = s0 at h1 h2 h3 c0 m0 n0 ⊢
  obtain ⟨a1, -, m1, n1⟩ := GeneratePlayoutMove_pass s0 f1 h1
    (by rw [m0, n0]; exact hp 0 (by decide))
  obtain ⟨p1, c1⟩ := a1 (by rw [c0]; decide)
  generalize GeneratePlayoutMove s0 f1 = r1 at h2 h3 m1 n1 p1 c1 ⊢
  obtain ⟨c1e, m1e, n1e⟩ := ExecutePlayout_frame r1.2.2 r1.1 base1
  generalize ExecutePlayout r1.2.2 r1.1 base1 = s1 at h2 h3 c1e m1e n1e ⊢
  obtain ⟨a2, -, m2, n2⟩ := GeneratePlayoutMove_pass s1 f2 h2
    (by rw [m1e, n1e, m1, n1, m0, n0]; exact hp 1 (by decide))
  obtain ⟨p2, c2⟩ := a2 (by rw [c1e, c1, c0]; decide)
  generalize GeneratePlayoutMove s1 f2 = r2 at h3 m2 n2 p2 c2 ⊢
  obtain ⟨c2e, m2e, n2e⟩ := ExecutePlayout_frame r2.2.2 r2.1 base2
  generalize ExecutePlayout r2.2.2 r2.1 base2 = s2 at h3 c2e m2e n2e ⊢
  obtain ⟨-, a3, -, -⟩ := GeneratePlayoutMove_pass s2 f3 h3
    (by rw [m2e, n2e, m2, n2, m1e, n1e, m1, n1, m0, n0]; exact hp 2 (by decide))
  refine ⟨p1, ?_, p2, ?_, a3 ?_⟩
  · rw [c1, c0]; rfl
  · rw [c2, c1e, c1, c0]; rfl
  · rw [c2e, c2, c1e, c1, c0]; decide

/-- C2 (witness): the amended pass accounting on the 9x9 example whose policy always
passes. -/
theorem pass_accounting_witness :
    (GeneratePlayoutMove (StartPlayout passExample passExample.toGoUctState) false).1
        = SgMove.SG_PASS
    ∧ (GeneratePlayoutMove
        (ExecutePlayout
          (GeneratePlayoutMove
            (ExecutePlayout
              (GeneratePlayoutMove (StartPlayout passExample passExample.toGoUctState) false).2.2
              (GeneratePlayoutMove (StartPlayout passExample passExample.toGoUctState) false).1
              passExample.toGoUctState) false).2.2
          (GeneratePlayoutMove
            (ExecutePlayout
              (GeneratePlayoutMove (StartPlayout passExample passExample.toGoUctState) false).2.2
              (GeneratePlayoutMove (StartPlayout passExample passExample.toGoUctState) false).1
              passExample.toGoUctState) false).1
          passExample.toGoUctState) false).1 = SgMove.SG_NULLMOVE :=
  have h := pass_accounting passExample passExample.toGoUctState passExample.toGoUctState
    passExample.toGoUctState false false false (fun _ _ => rfl) rfl rfl rfl
  ⟨h.1, h.2.2.2.2⟩

/-! ### Candidate moves after two passes -/

/-- The vector of `GenerateAllMoves` when the early return is not taken: the pushed
candidates, the front exchanged with a random index when there is more than one entry, and
a final pass. -/
theorem GenerateAllMoves_of_continue (s : GoUctGlobalSearchState) (moves : List SgMove)
    (hc : (s.m_bd.TwoPasses
        && (s.m_bd.Rules.CaptureDead
          || decide (s.m_bd.MoveNumber - s.m_initialMoveNumber ≥ 2))) = false) :
    (GenerateAllMoves s moves).1 =
      (if (s.m_bd.points.foldl
            (fun acc p => if isCandidate s p then acc ++ [SgMove.point p] else acc)
            moves).length > 1 then
        swapFront
          (s.m_bd.points.foldl
            (fun acc p => if isCandidate s p then acc ++ [SgMove.point p] else acc) moves)
          (s.m_random.Int
            (s.m_bd.points.foldl
              (fun acc p => if isCandidate s p then acc ++ [SgMove.point p] else acc)
              moves).length).1
      else
        s.m_bd.points.foldl
          (fun acc p => if isCandidate s p then acc ++ [SgMove.point p] else acc) moves)
      ++ [SgMove.SG_PASS] := by
  unfold GenerateAllMoves
  simp only [hc, Bool.false_eq_true, if_false]
  split_ifs <;> rfl

/-- C3 (counterexample): with the last two plies both passes and rules that require capturing
dead stones (and, here, two plies elapsed since the search root), `GenerateAllMoves` leaves
the empty candidate list empty; with the last two plies both passes, no dead-stone capture
and no ply elapsed since the root, it generates candidates. -/
theorem double_pass_candidates_inverted :
    doublePassExample.m_bd.TwoPasses = true
    ∧ doublePassExample.m_bd.Rules.CaptureDead = true
    ∧ doublePassExample.m_bd.MoveNumber - doublePassExample.m_initialMoveNumber ≥ 2
    ∧ (GenerateAllMoves doublePassExample []).1 = []
    ∧ doublePassAtRootExample.m_bd.TwoPasses = true
    ∧ doublePassAtRootExample.m_bd.Rules.CaptureDead = false
    ∧ ¬ doublePassAtRootExample.m_bd.MoveNumber - doublePassAtRootExample.m_initialMoveNumber ≥ 2
    ∧ (GenerateAllMoves doublePassAtRootExample []).1 ≠ [] := by
  refine ⟨rfl, rfl, by decide, rfl, rfl, rfl, by decide, ?_⟩
  rw [GenerateAllMoves_of_continue doublePassAtRootExample [] rfl]
  simp

/-- C3 (amended): when the last two plies on the board are both passes, `GenerateAllMoves`
adds no candidate (an empty list stays empty) if the rules require dead-stone capture or at
least two plies have elapsed since the search root; if neither holds play continues and the
result ends with a pass. -/
theorem GenerateAllMoves_after_double_pass (s : GoUctGlobalSearchState) (moves : List SgMove)
    (h2p : s.m_bd.TwoPasses = true) :
    ((s.m_bd.Rules.CaptureDead = true ∨ s.m_bd.MoveNumber - s.m_initialMoveNumber ≥ 2) →
      (GenerateAllMoves s moves).1 = moves)
    ∧ ((s.m_bd.Rules.CaptureDead = false ∧ s.m_bd.MoveNumber - s.m_initialMoveNumber < 2) →
      ∃ l, (GenerateAllMoves s moves).1 = l ++ [SgMove.SG_PASS]) := by
  constructor
  · intro h
    have hc : (s.m_bd.TwoPasses
        && (s.m_bd.Rules.CaptureDead
          || decide (s.m_bd.MoveNumber - s.m_initialMoveNumber ≥ 2))) = true := by
      rcases h with h | h <;> simp [h2p, h]
    unfold GenerateAllMoves
    simp only [hc, if_true]
  · rintro ⟨hcd, hlt⟩
    have hc : (s.m_bd.TwoPasses
        && (s.m_bd.Rules.CaptureDead
          || decide (s.m_bd.MoveNumber - s.m_initialMoveNumber ≥ 2))) = false := by
      simp [h2p, hcd, hlt]
    exact ⟨_, GenerateAllMoves_of_continue s moves hc⟩

/-- C3 (witness): the amended statement on the two double-pass examples. -/
theorem GenerateAllMoves_after_double_pass_witness :
    (GenerateAllMoves doublePassExample []).1 = []
    ∧ ∃ l, (GenerateAllMoves doublePassAtRootExample []).1 = l ++ [SgMove.SG_PASS] :=
  ⟨(GenerateAllMoves_after_double_pass doublePassExample [] rfl).1 (Or.inl rfl),
   (GenerateAllMoves_after_double_pass doublePassAtRootExample [] rfl).2 ⟨rfl, by decide⟩⟩

/-! ### The value of `Evaluate` -/

/-- C4 (evaluation at the failing input): on a 9x9 board with komi -5.5, after `StartSearch`
has set `m_invMaxScore = 1/(81 - 5.5) = 2/151`, with score modification 0.02, Black to move
and the area score 81 - 0 - (-5.5) = 86.5, `Evaluate` returns 3786/3775, which is above 1. -/
theorem Evaluate_above_one_negative_komi :
    (StartSearch negativeKomiExample negativeKomiExample.toGoUctState).m_invMaxScore = 2 / 151
    ∧ (Evaluate (StartSearch negativeKomiExample negativeKomiExample.toGoUctState)).1
        = 3786 / 3775
    ∧ 1 < (Evaluate (StartSearch negativeKomiExample negativeKomiExample.toGoUctState)).1 := by
  simp [Evaluate, EvaluateBoard, StartSearch, ClearTerritoryStatistics, negativeKomiExample,
    exampleState, exampleBoard, plainParam]
  norm_num

/-- The value of `EvaluateBoard` whenever it does not take the early mercy return: the
piecewise-linear image of the score seen from the side to move. -/
theorem EvaluateBoard_value (s : GoUctGlobalSearchState) (bd : GoBoard) (komi : ℚ)
    (h : s.m_passMovesPlayoutPhase < 2
      ∨ (s.m_param.m_mercyRule && s.m_mercyRuleTriggered) = false) :
    (EvaluateBoard s bd komi).1 =
      if (if bd.ToPlay = SgBlackWhite.SG_BLACK then
            (if s.m_passMovesPlayoutPhase < 2 then (bd.TrompTaylorScore komi).1
              else (bd.ScoreEndPosition komi s.m_safe false).1)
          else
            -(if s.m_passMovesPlayoutPhase < 2 then (bd.TrompTaylorScore komi).1
              else (bd.ScoreEndPosition komi s.m_safe false).1)) > 0 then
        (1 - s.m_param.m_scoreModification)
          + s.m_param.m_scoreModification
            * (if bd.ToPlay = SgBlackWhite.SG_BLACK then
                (if s.m_passMovesPlayoutPhase < 2 then (bd.TrompTaylorScore komi).1
                  else (bd.ScoreEndPosition komi s.m_safe false).1)
              else
                -(if s.m_passMovesPlayoutPhase < 2 then (bd.TrompTaylorScore komi).1
                  else (bd.ScoreEndPosition komi s.m_safe false).1))
            * s.m_invMaxScore
      else
        s.m_param.m_scoreModification
          + s.m_param.m_scoreModification
            * (if bd.ToPlay = SgBlackWhite.SG_BLACK then
                (if s.m_passMovesPlayoutPhase < 2 then (bd.TrompTaylorScore komi).1
                  else (bd.ScoreEndPosition komi s.m_safe false).1)
              else
                -(if s.m_passMovesPlayoutPhase < 2 then (bd.TrompTaylorScore komi).1
                  else (bd.ScoreEndPosition komi s.m_safe false).1))
            * s.m_invMaxScore := by
  unfold EvaluateBoard
  by_cases hc : s.m_passMovesPlayoutPhase < 2
  · simp only [hc, if_true]
    by_cases hb : bd.ToPlay = SgBlackWhite.SG_BLACK
    · simp only [hb, ne_eq, not_true_eq_false, if_false, if_true]
      split_ifs <;> rfl
    · simp only [hb, ne_eq, not_false_eq_true, if_true, if_false, mul_neg, mul_one]
      split_ifs <;> rfl
  · have hm : (s.m_param.m_mercyRule && s.m_mercyRuleTriggered) = false := by
      rcases h with h | h
      · exact absurd h hc
      · exact h
    simp only [hc, hm, if_false, Bool.false_eq_true]
    by_cases hb : bd.ToPlay = SgBlackWhite.SG_BLACK
    · simp only [hb, ne_eq, not_true_eq_false, if_false, if_true]
      split_ifs <;> rfl
    · simp only [hb, ne_eq, not_false_eq_true, if_true, if_false, mul_neg, mul_one]
      split_ifs <;> rfl

/-- The value of `Evaluate` whenever it does not take the early mercy return, in terms of
`evalScore`. -/
theorem Evaluate_value (s : GoUctGlobalSearchState)
    (h : s.m_passMovesPlayoutPhase < 2
      ∨ (s.m_param.m_mercyRule && s.m_mercyRuleTriggered) = false) :
    (Evaluate s).1 =
      if evalScore s > 0 then
        (1 - s.m_param.m_scoreModification)
          + s.m_param.m_scoreModification * evalScore s * s.m_invMaxScore
      else
        s.m_param.m_scoreModification
          + s.m_param.m_scoreModification * evalScore s * s.m_invMaxScore := by
  unfold Evaluate evalScore evalBoard
  by_cases hp : s.m_isInPlayout = true
  · simp only [hp, if_true]
    exact EvaluateBoard_value s s.m_uctBd s.m_bd.Rules.Komi h
  · simp only [hp, if_false, Bool.false_eq_true]
    exact EvaluateBoard_value s s.m_bd s.m_bd.Rules.Komi h

/-- In exact arithmetic, with a non-negative komi the normalisation set by `StartSearch` does
bound the value: for `0 ≤ k ≤ 1`, `m_invMaxScore` the inverse of `size*size + komi > 0`, the mercy rule not
triggered and an area score `b - w - komi` with `b, w ≥ 0` and `b + w ≤ size*size` seen from
either side, `Evaluate` returns a value in the closed interval [0,1]. -/
theorem Evaluate_mem_unit_interval_of_nonneg_komi (s : GoUctGlobalSearchState) (b w : ℚ)
    (hk0 : 0 ≤ s.m_param.m_scoreModification) (hk1 : s.m_param.m_scoreModification ≤ 1)
    (hkomi : 0 ≤ s.m_bd.Rules.Komi)
    (hM : 0 < ((s.m_bd.Size * s.m_bd.Size : Int) : ℚ) + s.m_bd.Rules.Komi)
    (hinv : s.m_invMaxScore = 1 / (((s.m_bd.Size * s.m_bd.Size : Int) : ℚ) + s.m_bd.Rules.Komi))
    (ht : s.m_mercyRuleTriggered = false)
    (hb : 0 ≤ b) (hw : 0 ≤ w) (hbw : b + w ≤ ((s.m_bd.Size * s.m_bd.Size : Int) : ℚ))
    (hs : evalScore s = b - w - s.m_bd.Rules.Komi
      ∨ evalScore s = -(b - w - s.m_bd.Rules.Komi)) :
    0 ≤ (Evaluate s).1 ∧ (Evaluate s).1 ≤ 1 := by
  rw [Evaluate_value s (Or.inr (by simp [ht])), hinv]
  have hhi : evalScore s ≤ ((s.m_bd.Size * s.m_bd.Size : Int) : ℚ) + s.m_bd.Rules.Komi := by
    rcases hs with h | h <;> rw [h] <;> linarith
  have hlo : -(((s.m_bd.Size * s.m_bd.Size : Int) : ℚ) + s.m_bd.Rules.Komi) ≤ evalScore s := by
    rcases hs with h | h <;> rw [h] <;> linarith
  generalize ((s.m_bd.Size * s.m_bd.Size : Int) : ℚ) + s.m_bd.Rules.Komi = M at *
  generalize s.m_param.m_scoreModification = k at *
  generalize evalScore s = x at *
  have hM0 : M ≠ 0 := ne_of_gt hM
  have e : k * x * (1 / M) = k * (x / M) := by field_simp
  rw [e]
  have h1 : x / M ≤ 1 := (div_le_one hM).mpr hhi
  have h2 : -1 ≤ x / M := by
    rw [le_div_iff₀ hM]
    linarith
  by_cases hx : x > 0
  · have h3 : 0 < x / M := div_pos hx hM
    simp only [hx, if_true]
    constructor <;> nlinarith
  · have h3 : x / M ≤ 0 := div_nonpos_of_nonpos_of_nonneg (not_lt.mp hx) (le_of_lt hM)
    simp only [hx, if_false]
    constructor <;> nlinarith

/-- C10: with the mercy rule not triggered and the pass counter at most 2, `Evaluate` returns
the value of the reference definition: the Tromp-Taylor score below two passes and the
end-position score at two passes, seen from the side to move, mapped to
`(1 - k) + k*s*invMaxScore` when positive and to `k + k*s*invMaxScore` otherwise. -/
theorem Evaluate_eq_reference (s : GoUctGlobalSearchState)
    (ht : s.m_mercyRuleTriggered = false) (hc : s.m_passMovesPlayoutPhase ≤ 2) :
    EvaluateReference s = some (Evaluate s).1 := by
  rw [Evaluate_value s (Or.inr (by simp [ht]))]
  unfold EvaluateReference evalScore evalBoard
  by_cases h : s.m_passMovesPlayoutPhase < 2
  · simp only [h, if_true]
  · have h2 : s.m_passMovesPlayoutPhase = 2 := by omega
    simp only [h2, lt_self_iff_false, if_false, if_true]

/-- C10 (witness): on the 9x9 example with score 1 the reference definition and `Evaluate`
both give 3970/4050. -/
theorem Evaluate_eq_reference_witness :
    EvaluateReference (scoreExample (1 / 50) 21 20 1)
        = some (Evaluate (scoreExample (1 / 50) 21 20 1)).1
    ∧ (Evaluate (scoreExample (1 / 50) 21 20 1)).1 = 3970 / 4050 :=
  ⟨Evaluate_eq_reference (scoreExample (1 / 50) 21 20 1) rfl (by decide),
   by norm_num [Evaluate, EvaluateBoard, scoreExample, exampleState, exampleBoard, plainParam]⟩

/-! ### The mercy rule in `GeneratePlayoutMove` -/

/-- C8 (counterexample): with the mercy rule enabled, threshold 0 (a 1x1 board), stone
differential 0 and Black to move, the differential is `≤ -threshold`, yet the call latches
the result 1, not the 0 the claim gives for Black to move in that case: the test
`≥ threshold` comes first and also holds. -/
theorem mercy_lower_clause_fails_at_zero_threshold :
    zeroThresholdExample.m_param.m_mercyRule = true
    ∧ zeroThresholdExample.m_stoneDiff ≤ -zeroThresholdExample.m_mercyRuleThreshold
    ∧ zeroThresholdExample.m_uctBd.ToPlay = SgBlackWhite.SG_BLACK
    ∧ (GeneratePlayoutMove zeroThresholdExample false).1 = SgMove.SG_NULLMOVE
    ∧ (GeneratePlayoutMove zeroThresholdExample false).2.2.m_mercyRuleResult = 1
    ∧ (GeneratePlayoutMove zeroThresholdExample false).2.2.m_mercyRuleResult ≠ 0 := by
  simp [GeneratePlayoutMove, CheckMercyRule, zeroThresholdExample, exampleState, exampleBoard,
    mercyParam]

/-- C8 (amended): with the mercy rule enabled, (1) if the stone differential is at least the
threshold, `GeneratePlayoutMove` returns `SG_NULLMOVE`, leaves the policy and the caller's
flag untouched, sets the trigger flag and latches 1 when Black is to move and 0 when White
is; (2) if the differential is below the threshold and at most minus the threshold, it does
the same with 1 when White is to move and 0 when Black is; (3) if the differential lies
strictly between minus the threshold and the threshold and the trigger flag is clear on
entry (as the code asserts there), the flag stays clear and the policy is asked for exactly
one move. -/
theorem GeneratePlayoutMove_mercy (s : GoUctGlobalSearchState) (f : Bool)
    (hm : s.m_param.m_mercyRule = true) :
    (s.m_mercyRuleThreshold ≤ s.m_stoneDiff →
      (GeneratePlayoutMove s f).1 = SgMove.SG_NULLMOVE
      ∧ (GeneratePlayoutMove s f).2.1 = f
      ∧ (GeneratePlayoutMove s f).2.2.m_policy = s.m_policy
      ∧ (GeneratePlayoutMove s f).2.2.m_mercyRuleTriggered = true
      ∧ (GeneratePlayoutMove s f).2.2.m_mercyRuleResult
          = if s.m_uctBd.ToPlay = SgBlackWhite.SG_BLACK then 1 else 0)
    ∧ (s.m_stoneDiff < s.m_mercyRuleThreshold → s.m_stoneDiff ≤ -s.m_mercyRuleThreshold →
      (GeneratePlayoutMove s f).1 = SgMove.SG_NULLMOVE
      ∧ (GeneratePlayoutMove s f).2.1 = f
      ∧ (GeneratePlayoutMove s f).2.2.m_policy = s.m_policy
      ∧ (GeneratePlayoutMove s f).2.2.m_mercyRuleTriggered = true
      ∧ (GeneratePlayoutMove s f).2.2.m_mercyRuleResult
          = if s.m_uctBd.ToPlay = SgBlackWhite.SG_WHITE then 1 else 0)
    ∧ (-s.m_mercyRuleThreshold < s.m_stoneDiff → s.m_stoneDiff < s.m_mercyRuleThreshold →
      s.m_mercyRuleTriggered = false →
      (GeneratePlayoutMove s f).2.2.m_mercyRuleTriggered = false
      ∧ (GeneratePlayoutMove s f).2.2.m_policy.nuGenerateMove
          = s.m_policy.nuGenerateMove + 1
      ∧ ((GeneratePlayoutMove s f).1 = s.m_policy.moves s.m_policy.nuGenerateMove
        ∨ (s.m_policy.moves s.m_policy.nuGenerateMove = SgMove.SG_PASS
          ∧ ¬ s.m_passMovesPlayoutPhase < 2
          ∧ (GeneratePlayoutMove s f).1 = SgMove.SG_NULLMOVE))) := by
  refine ⟨?_, ?_, ?_⟩
  · intro h
    have h1 : s.m_stoneDiff ≥ s.m_mercyRuleThreshold := h
    simp [GeneratePlayoutMove, CheckMercyRule, hm, h1]
  · intro h h'
    have h1 : ¬ s.m_stoneDiff ≥ s.m_mercyRuleThreshold := not_le.mpr h
    simp [GeneratePlayoutMove, CheckMercyRule, hm, h1, h']
  · intro h h' ht
    have h1 : ¬ s.m_stoneDiff ≥ s.m_mercyRuleThreshold := not_le.mpr h'
    have h2 : ¬ s.m_stoneDiff ≤ -s.m_mercyRuleThreshold := not_le.mpr h
    unfold GeneratePlayoutMove CheckMercyRule
    simp only [hm, h1, h2, ht, if_true, if_false, Bool.false_eq_true, POLICY.GenerateMove]
    by_cases hp : s.m_policy.moves s.m_policy.nuGenerateMove = SgMove.SG_PASS
    · by_cases hc : s.m_passMovesPlayoutPhase < 2
      · simp [hp, hc, ht]
      · simp [hp, hc, ht]
    · simp [hp, ht]

/-- C8 (witness): on 9x9 (threshold 24) with 30 black and 6 white stones and Black to move
the call ends the game with the latched result 1; with 6 black and 30 white stones and Black
to move it ends the game with the latched result 0; with 20 stones each the rule does not
trigger and the policy has been asked once. -/
theorem GeneratePlayoutMove_mercy_witness :
    ((GeneratePlayoutMove (mercyState 30 6 SgBlackWhite.SG_BLACK) false).1 = SgMove.SG_NULLMOVE
      ∧ (GeneratePlayoutMove (mercyState 30 6 SgBlackWhite.SG_BLACK) false).2.2.m_mercyRuleResult
          = 1)
    ∧ ((GeneratePlayoutMove (mercyState 6 30 SgBlackWhite.SG_BLACK) false).1 = SgMove.SG_NULLMOVE
      ∧ (GeneratePlayoutMove (mercyState 6 30 SgBlackWhite.SG_BLACK) false).2.2.m_mercyRuleResult
          = 0)
    ∧ ((GeneratePlayoutMove (mercyState 20 20 SgBlackWhite.SG_BLACK) false).2.2.m_mercyRuleTriggered
          = false
      ∧ (GeneratePlayoutMove (mercyState 20 20 SgBlackWhite.SG_BLACK) false).2.2.m_policy.nuGenerateMove
          = 1) :=
  have a := (GeneratePlayoutMove_mercy (mercyState 30 6 SgBlackWhite.SG_BLACK) false rfl).1
    (by decide)
  have b := (GeneratePlayoutMove_mercy (mercyState 6 30 SgBlackWhite.SG_BLACK) false rfl).2.1
    (by decide) (by decide)
  have c := (GeneratePlayoutMove_mercy (mercyState 20 20 SgBlackWhite.SG_BLACK) false rfl).2.2
    (by decide) (by decide) rfl
  ⟨⟨a.1, a.2.2.2.2⟩, ⟨b.1, b.2.2.2.2⟩, ⟨c.1, c.2.1⟩⟩

/-! ### The composition of the candidate list -/

/-- Exchanging the front with an entry further back: the entry takes the front and the old
front takes its place. -/
theorem perm_cons_set (a b : SgMove) : ∀ (t : List SgMove) (k : Nat), t[k]? = some b →
    (b :: t.set k a).Perm (a :: t)
  | [], _, h => by simp at h
  | x :: t, 0, h => by
    simp at h
    subst h
    simpa using List.Perm.swap a x t
  | x :: t, k + 1, h => by
    simp at h
    have ih := perm_cons_set a b t k h
    simp only [List.set_cons_succ]
    exact (List.Perm.swap x b _).trans ((ih.cons x).trans (List.Perm.swap a x t))

/-- The exchange `swapFront` rearranges the vector. -/
theorem swapFront_perm (l : List SgMove) (r : Nat) : (swapFront l r).Perm l := by
  unfold swapFront
  cases l with
  | nil => simp
  | cons a t =>
    cases r with
    | zero => simp
    | succ k =>
      simp only [List.getElem?_cons_zero, List.getElem?_cons_succ]
      cases h : t[k]? with
      | none => simp
      | some b =>
        simp only [List.set_cons_zero, List.set_cons_succ]
        exact perm_cons_set a b t k h

/-- The entries of `swapFront l r` for an index `r` inside the vector: positions 0 and `r`
are exchanged, every other position keeps its entry. -/
theorem swapFront_getElem? (l : List SgMove) (r i : Nat) (hr : r < l.length) :
    (swapFront l r)[i]? = l[if i = 0 then r else if i = r then 0 else i]? := by
  have h0 : 0 < l.length := by omega
  unfold swapFront
  rw [List.getElem?_eq_getElem h0, List.getElem?_eq_getElem hr]
  simp only [List.getElem?_set, List.length_set]
  by_cases hi0 : i = 0
  · subst hi0
    by_cases hr0 : r = 0
    · subst hr0; simp [h0]
    · simp [hr0, h0, hr, List.getElem?_eq_getElem]
  · by_cases hir : i = r
    · subst hir
      simp [hr, h0, hi0, List.getElem?_eq_getElem]
    · have : ¬ r = i := fun h => hir h.symm
      have : ¬ 0 = i := fun h => hi0 h.symm
      simp [*]

/-- The push loop of `GenerateAllMoves` appends the candidates in iteration order. -/
theorem foldl_push (c : SgPoint → Bool) : ∀ (l : List SgPoint) (moves : List SgMove),
    l.foldl (fun acc p => if c p then acc ++ [SgMove.point p] else acc) moves
      = moves ++ (l.filter c).map SgMove.point
  | [], moves => by simp
  | x :: l, moves => by
    simp only [List.foldl_cons]
    rw [foldl_push c l]
    by_cases h : c x = true
    · simp [h, List.filter_cons]
    · simp [h, List.filter_cons]

/-- C9: for a position whose last two plies are not both passes and whose iteration visits
no point twice, `GenerateAllMoves` called with an empty vector returns a vector that ends
with the pass move; the entries before it have no duplicates and are exactly the points of
the board that are empty, not a simple eye for the side to move, not marked safe and legal
for the side to move; they stand in iteration order, except that, when there are `n > 1` of
them, the entries at index 0 and at one index `r < n` are exchanged. -/
theorem GenerateAllMoves_composition (s : GoUctGlobalSearchState)
    (h2p : s.m_bd.TwoPasses = false) (hnd : s.m_bd.points.Nodup) :
    ∃ (cands : List SgPoint) (r : Nat),
      cands = s.m_bd.points.filter (fun p =>
        s.m_bd.IsEmpty p && !s.m_bd.IsSimpleEye p s.m_bd.ToPlay && !s.m_allSafe p
          && s.m_bd.IsLegal p s.m_bd.ToPlay)
      ∧ (GenerateAllMoves s []).1.getLast? = some SgMove.SG_PASS
      ∧ (GenerateAllMoves s []).1.length = cands.length + 1
      ∧ (GenerateAllMoves s []).1.dropLast.Nodup
      ∧ (GenerateAllMoves s []).1.dropLast.Perm (cands.map SgMove.point)
      ∧ (∀ m, m ∈ (GenerateAllMoves s []).1.dropLast ↔
          ∃ p, m = SgMove.point p ∧ p ∈ s.m_bd.points ∧ s.m_bd.IsEmpty p = true
            ∧ s.m_bd.IsSimpleEye p s.m_bd.ToPlay = false ∧ s.m_allSafe p = false
            ∧ s.m_bd.IsLegal p s.m_bd.ToPlay = true)
      ∧ (cands.length ≤ 1 →
          (GenerateAllMoves s []).1 = cands.map SgMove.point ++ [SgMove.SG_PASS])
      ∧ (1 < cands.length →
          r < cands.length
          ∧ ∀ i, i < cands.length →
              (GenerateAllMoves s []).1[i]?
                = (cands.map SgMove.point)[if i = 0 then r else if i = r then 0 else i]?) := by
  have hc : (s.m_bd.TwoPasses
      && (s.m_bd.Rules.CaptureDead
        || decide (s.m_bd.MoveNumber - s.m_initialMoveNumber ≥ 2))) = false := by
    simp [h2p]
  have hcand : (fun p => s.m_bd.IsEmpty p && !s.m_bd.IsSimpleEye p s.m_bd.ToPlay
      && !s.m_allSafe p && s.m_bd.IsLegal p s.m_bd.ToPlay) = isCandidate s := rfl
  refine ⟨s.m_bd.points.filter (isCandidate s),
    (s.m_random.Int ((s.m_bd.points.filter (isCandidate s)).map SgMove.point).length).1,
    by rw [hcand], ?_⟩
  rw [GenerateAllMoves_of_continue s [] hc, foldl_push, List.nil_append]
  generalize hcm : (s.m_bd.points.filter (isCandidate s)).map SgMove.point = cm
  have hlen : cm.length = (s.m_bd.points.filter (isCandidate s)).length := by
    rw [← hcm, List.length_map]
  have hperm : (if cm.length > 1 then swapFront cm (s.m_random.Int cm.length).1 else cm).Perm
      cm := by
    split_ifs
    · exact swapFront_perm _ _
    · exact List.Perm.refl _
  have hcmnd : cm.Nodup := by
    rw [← hcm]
    exact (hnd.filter _).map (fun a b h => SgMove.point.inj h)
  refine ⟨List.getLast?_concat _, ?_, ?_, ?_, ?_, ?_, ?_⟩
  · rw [List.length_append, hperm.length_eq, hlen]
    rfl
  · rw [List.dropLast_concat]
    exact hperm.nodup_iff.mpr hcmnd
  · rw [List.dropLast_concat]
    exact hperm
  · intro m
    rw [List.dropLast_concat, hperm.mem_iff, ← hcm, List.mem_map]
    constructor
    · rintro ⟨p, hp, rfl⟩
      rw [List.mem_filter] at hp
      obtain ⟨hp1, hp2⟩ := hp
      simp only [isCandidate, Bool.and_eq_true, Bool.not_eq_true'] at hp2
      exact ⟨p, rfl, hp1, hp2.1.1.1, hp2.1.1.2, hp2.1.2, hp2.2⟩
    · rintro ⟨p, rfl, hp1, h1, h2, h3, h4⟩
      refine ⟨p, ?_, rfl⟩
      rw [List.mem_filter]
      refine ⟨hp1, ?_⟩
      simp [isCandidate, h1, h2, h3, h4]
  · intro hle
    have : ¬ cm.length > 1 := by omega
    simp only [this, if_false]
  · intro hlt
    have hgt : cm.length > 1 := by omega
    have hr : (s.m_random.Int cm.length).1 < cm.length := by
      unfold SgRandom.Int
      exact Nat.mod_lt _ (by omega)
    refine ⟨by rw [← hlen]; exact hr, ?_⟩
    intro i hi
    simp only [hgt, if_true]
    rw [List.getElem?_append_left (by rw [(swapFront_perm _ _).length_eq]; omega)]
    exact swapFront_getElem? cm _ i hr

/-- C9 (witness): on the empty 9x9 board `GenerateAllMoves` returns 82 entries, the last one
the pass move, the 81 before it without duplicates and containing every point of the
board. -/
theorem GenerateAllMoves_composition_witness :
    (GenerateAllMoves emptyBoardExample []).1.getLast? = some SgMove.SG_PASS
    ∧ (GenerateAllMoves emptyBoardExample []).1.length = 82
    ∧ (GenerateAllMoves emptyBoardExample []).1.dropLast.Nodup
    ∧ ∀ p, p ∈ emptyBoardExample.m_bd.points →
        SgMove.point p ∈ (GenerateAllMoves emptyBoardExample []).1.dropLast := by
  have hnd : emptyBoardExample.m_bd.points.Nodup :=
    (List.nodup_range 81).map (fun a b h => Int.ofNat.inj h)
  obtain ⟨cands, r, hc, hlast, hlen, hnodup, -, hmem, -, -⟩ :=
    GenerateAllMoves_composition emptyBoardExample rfl hnd
  have hall : ∀ p, p ∈ emptyBoardExample.m_bd.points →
      emptyBoardExample.m_bd.IsEmpty p = true
        ∧ emptyBoardExample.m_bd.IsLegal p emptyBoardExample.m_bd.ToPlay = true := by
    intro p hp
    simp only [emptyBoardExample, exampleState, exampleBoard, List.mem_map, List.mem_range]
      at hp
    obtain ⟨a, -, rfl⟩ := hp
    simp [emptyBoardExample, exampleState, exampleBoard]
  have hcands : cands = emptyBoardExample.m_bd.points := by
    rw [hc, List.filter_eq_self]
    intro p hp
    obtain ⟨h1, h2⟩ := hall p hp
    rw [h1, h2]
    rfl
  refine ⟨hlast, ?_, hnodup, ?_⟩
  · rw [hlen, hcands]
    simp [emptyBoardExample, exampleState, exampleBoard]
  · intro p hp
    obtain ⟨h1, h2⟩ := hall p hp
    exact (hmem _).mpr ⟨p, rfl, hp, h1, rfl, rfl, h2⟩

/-! ### The mercy threshold of `GameStart` -/

/-- After dropping `dropBits P P` low bits at most 53 bits remain, exactly 53 when any was
dropped. -/
theorem dropBits_spec : ∀ (fuel P : Nat), P ≤ fuel →
    P / 2 ^ dropBits fuel P < 2 ^ 53 ∧ (0 < dropBits fuel P → 2 ^ 52 ≤ P / 2 ^ dropBits fuel P)
  | 0, P, h => by
    have : P = 0 := by omega
    subst this
    simp [dropBits]
  | fuel + 1, P, h => by
    unfold dropBits
    by_cases hP : P < 2 ^ 53
    · rw [if_pos hP]
      exact ⟨by simpa using hP, fun h => absurd h (lt_irrefl 0)⟩
    · rw [if_neg hP]
      have hle : P / 2 ≤ fuel := by omega
      obtain ⟨h1, h2⟩ := dropBits_spec fuel (P / 2) hle
      have e : P / 2 ^ (dropBits fuel (P / 2) + 1) = P / 2 / 2 ^ dropBits fuel (P / 2) := by
        rw [pow_succ, mul_comm, Nat.div_div_eq_div_mul]
      rw [e]
      refine ⟨h1, fun _ => ?_⟩
      by_cases h0 : 0 < dropBits fuel (P / 2)
      · exact h2 h0
      · have h0' : dropBits fuel (P / 2) = 0 := by omega
        rw [h0']
        simp only [pow_zero, Nat.div_one]
        omega

/-- Rounding to the significand moves a number by at most its `2^-53`-th part. -/
theorem roundSignificand_near (P : Nat) :
    2 ^ 53 * roundSignificand P ≤ 2 ^ 53 * P + P
    ∧ 2 ^ 53 * P ≤ 2 ^ 53 * roundSignificand P + P := by
  obtain ⟨h1, h2⟩ := dropBits_spec P P le_rfl
  unfold roundSignificand
  dsimp only
  generalize dropBits P P = sh at h1 h2 ⊢
  have hu : 0 < 2 ^ sh := pow_pos (by decide) _
  have hdm : 2 ^ sh * (P / 2 ^ sh) + P % 2 ^ sh = P := Nat.div_add_mod P (2 ^ sh)
  have hr : P % 2 ^ sh < 2 ^ sh := Nat.mod_lt _ hu
  have hub : 2 ^ sh = 1 ∨ 2 ^ sh * 2 ^ 52 ≤ P := by
    by_cases h0 : 0 < sh
    · right
      have := h2 h0
      calc 2 ^ sh * 2 ^ 52 ≤ 2 ^ sh * (P / 2 ^ sh) := Nat.mul_le_mul_left _ this
        _ ≤ P := Nat.mul_div_le P (2 ^ sh)
    · left
      have : sh = 0 := by omega
      rw [this]; rfl
  generalize 2 ^ sh = u at *
  generalize P / u = q at *
  generalize P % u = r at *
  have e1 : (q + 1) * u = u * q + u := by ring
  have e2 : q * u = u * q := by ring
  generalize huq : u * q = uq at *
  rcases hub with hu1 | hub
  · subst hu1
    have hr0 : r = 0 := by omega
    subst hr0
    simp
    omega
  · split_ifs with hc
    · rw [e1]
      rcases hc with hc | ⟨hc, -⟩ <;> omega
    · rw [e2]
      have : 2 * r ≤ u := by
        by_contra hcon
        exact hc (Or.inl (by omega))
      omega

/-- A number just below (or at) a multiple `T` of `2^k` that fits 53 bits at that scale rounds
to `T` when it is closer to `T` than half a unit in its last place. -/
theorem roundSignificand_exact (P T k c : Nat) (hT : T = c * 2 ^ k) (hPk : P < 2 ^ (k + 53))
    (hle : P ≤ T) (hclose : 2 * (T - P) * 2 ^ 53 ≤ P) : roundSignificand P = T := by
  obtain ⟨h1, h2⟩ := dropBits_spec P P le_rfl
  unfold roundSignificand
  dsimp only
  generalize dropBits P P = sh at h1 h2 ⊢
  have hu : 0 < 2 ^ sh := pow_pos (by decide) _
  have hshk : sh ≤ k := by
    by_contra hcon
    have hk1 : k + 1 ≤ sh := by omega
    have h52 := h2 (by omega)
    have : P / 2 ^ sh ≤ P / 2 ^ (k + 1) :=
      Nat.div_le_div_left (Nat.pow_le_pow_right (by decide) hk1) (pow_pos (by decide) _)
    have h3 : P / 2 ^ (k + 1) < 2 ^ 52 := by
      rw [Nat.div_lt_iff_lt_mul (pow_pos (by decide) _)]
      calc P < 2 ^ (k + 53) := hPk
        _ = 2 ^ 52 * 2 ^ (k + 1) := by rw [← pow_add]; congr 1; omega
    omega
  have hT' : T = (c * 2 ^ (k - sh)) * 2 ^ sh := by
    rw [hT, mul_assoc, ← pow_add]
    congr 2
    omega
  have hPu : P < 2 ^ sh * 2 ^ 53 := by
    have := (Nat.div_lt_iff_lt_mul hu).mp h1
    rw [mul_comm]; exact this
  generalize c * 2 ^ (k - sh) = t at hT'
  have hdm : 2 ^ sh * (P / 2 ^ sh) + P % 2 ^ sh = P := Nat.div_add_mod P (2 ^ sh)
  have hr : P % 2 ^ sh < 2 ^ sh := Nat.mod_lt _ hu
  generalize 2 ^ sh = u at *
  have hd : 2 * (T - P) < u := by
    by_contra hcon
    have : u * 2 ^ 53 ≤ 2 * (T - P) * 2 ^ 53 := Nat.mul_le_mul_right _ (by omega)
    omega
  have hq : P / u = (if P = T then t else t - 1) ∧ P % u = (if P = T then 0 else u - (T - P)) := by
    rw [Nat.div_mod_unique hu]
    by_cases hPT : P = T
    · simp only [hPT, if_true]
      refine ⟨?_, hu⟩
      rw [hT']; ring
    · simp only [hPT, if_false]
      have hlt : P < T := lt_of_le_of_ne hle hPT
      have ht : 1 ≤ t := by
        rcases Nat.eq_zero_or_pos t with h0 | h0
        · rw [h0, zero_mul] at hT'; omega
        · exact h0
      have e : u * (t - 1) + u = t * u := by
        obtain ⟨t', rfl⟩ : ∃ t', t = t' + 1 := ⟨t - 1, by omega⟩
        simp; ring
      constructor
      · omega
      · omega
  obtain ⟨hq1, hq2⟩ := hq
  rw [hq1, hq2]
  by_cases hPT : P = T
  · simp only [hPT, if_true]
    have : ¬ (2 * 0 > u ∨ 2 * 0 = u ∧ t % 2 = 1) := by omega
    simp only [this, if_false]
    exact hT'.symm
  · simp only [hPT, if_false]
    have hlt : P < T := lt_of_le_of_ne hle hPT
    have ht : 1 ≤ t := by
      rcases Nat.eq_zero_or_pos t with h0 | h0
      · rw [h0, zero_mul] at hT'; omega
      · exact h0
    have : (2 * (u - (T - P)) > u ∨ 2 * (u - (T - P)) = u ∧ (t - 1) % 2 = 1) :=
      Or.inl (by omega)
    simp only [this, if_true]
    rw [hT']
    congr 1
    omega

/-- The binary64 value of `c * n * n`, truncated, is `3*n*n/10` rounded down when `c` is the
`double` nearest to 0.3, for every `n` up to 84606, the largest size whose 30% of area fits
a 32-bit `int`. -/
theorem truncated_product_eq (M n : Nat) (hM : M = 5404319552844595) (hn : n ≤ 84606) :
    roundSignificand (roundSignificand (M * n) * n) / 2 ^ 54 = 3 * n * n / 10 := by
  by_cases h10 : n % 10 = 0
  · obtain ⟨m, rfl⟩ : ∃ m, n = 10 * m := ⟨n / 10, by omega⟩
    have hm : m ≤ 8460 := by omega
    have hmm : m * m ≤ 8460 * 8460 := Nat.mul_le_mul hm hm
    have e1 : roundSignificand (M * (10 * m)) = 3 * m * 2 ^ 54 := by
      apply roundSignificand_exact _ _ 54 (3 * m) rfl
      · rw [hM]; norm_num; omega
      · rw [hM]; norm_num; omega
      · rw [hM]; norm_num; omega
    rw [e1]
    have e2 : roundSignificand (3 * m * 2 ^ 54 * (10 * m)) = 30 * (m * m) * 2 ^ 54 := by
      apply roundSignificand_exact _ _ 54 (30 * (m * m)) rfl
      · have : 3 * m * 2 ^ 54 * (10 * m) = 30 * (m * m) * 2 ^ 54 := by ring
        rw [this]
        norm_num
        omega
      · apply le_of_eq; ring
      · have : 3 * m * 2 ^ 54 * (10 * m) = 30 * (m * m) * 2 ^ 54 := by ring
        rw [this]
        simp
    rw [e2, Nat.mul_div_cancel _ (pow_pos (by decide) _)]
    have : 3 * (10 * m) * (10 * m) = 30 * (m * m) * 10 := by ring
    rw [this, Nat.mul_div_cancel _ (by decide)]
  · obtain ⟨a1, a2⟩ := roundSignificand_near (M * n)
    obtain ⟨b1, b2⟩ := roundSignificand_near (roundSignificand (M * n) * n)
    generalize roundSignificand (roundSignificand (M * n) * n) = R2 at *
    generalize hR1 : roundSignificand (M * n) = R1 at *
    have hnn : n * n ≤ 84606 * 84606 := Nat.mul_le_mul hn hn
    have hmod : (3 * n * n) % 10 = (3 * ((n % 10) * (n % 10))) % 10 := by
      rw [mul_assoc, Nat.mul_mod, Nat.mul_mod n n, ← Nat.mul_mod]
    have hrho : 2 ≤ (3 * n * n) % 10 ∧ (3 * n * n) % 10 ≤ 8 := by
      rw [hmod]
      have hlt : n % 10 < 10 := Nat.mod_lt _ (by decide)
      interval_cases (n % 10) <;> simp_all
    have hF := Nat.div_add_mod (3 * n * n) 10
    generalize (3 * n * n) % 10 = rho at *
    generalize 3 * n * n / 10 = F at *
    -- scale the first error bound by n
    have c1 : 2 ^ 53 * (R1 * n) ≤ 2 ^ 53 * (M * n * n) + M * n * n := by
      have := Nat.mul_le_mul_right n a1
      calc 2 ^ 53 * (R1 * n) = 2 ^ 53 * R1 * n := by ring
        _ ≤ (2 ^ 53 * (M * n) + M * n) * n := this
        _ = _ := by ring
    have c2 : 2 ^ 53 * (M * n * n) ≤ 2 ^ 53 * (R1 * n) + M * n * n := by
      have := Nat.mul_le_mul_right n a2
      calc 2 ^ 53 * (M * n * n) = 2 ^ 53 * (M * n) * n := by ring
        _ ≤ (2 ^ 53 * R1 + M * n) * n := this
        _ = _ := by ring
    have hX : 10 * (M * n * n) + 2 * (n * n) = 3 * 2 ^ 54 * (n * n) := by
      rw [hM]; ring
    have hX2 : 3 * 2 ^ 54 * (n * n) = 2 ^ 54 * (10 * F + rho) := by
      rw [hF]; ring
    generalize M * n * n = X at *
    generalize R1 * n = Y at *
    generalize n * n = N at *
    have lo : F * 2 ^ 54 ≤ R2 := by
      norm_num at *
      omega
    have hi : R2 < (F + 1) * 2 ^ 54 := by
      norm_num at *
      omega
    apply Nat.div_eq_of_lt_le
    · exact lo
    · exact hi

/-- The product of two non-negative operands in the embedding of `double`. -/
theorem mulDouble_natCast (x n : Nat) :
    mulDouble (x : Int) (n : Int) = ((roundSignificand (x * n) : Nat) : Int) := by
  unfold mulDouble
  have e : ((x : Int) * (n : Int)) = ((x * n : Nat) : Int) := by push_cast; ring
  rw [e, Int.natAbs_ofNat]
  rcases Nat.eq_zero_or_pos (x * n) with h | h
  · rw [h]
    simp [roundSignificand, dropBits]
  · rw [Int.sign_eq_one_of_pos (by exact_mod_cast h), one_mul]

/-- The truncation of a non-negative `double` in the embedding. -/
theorem truncToInt_natCast (y : Nat) : truncToInt (y : Int) = ((y / 2 ^ 54 : Nat) : Int) := by
  unfold truncToInt
  rw [Int.natAbs_ofNat]
  rcases Nat.eq_zero_or_pos y with h | h
  · rw [h]; simp
  · rw [Int.sign_eq_one_of_pos (by exact_mod_cast h), one_mul]

/-- C15: for every board size `n` (every `n ≥ 1` in particular) whose 30% of area fits a
32-bit `int`, the threshold after `GameStart`, computed as
`static_cast<int>(0.3 * size * size)` in binary64, equals `3*n*n/10` rounded down. -/
theorem GameStart_threshold (s : GoUctGlobalSearchState) (base : GoUctState) (n : Nat)
    (hsize : base.m_bd.Size = (n : Int)) (hfit : 3 * n * n / 10 ≤ 2147483647) :
    (GameStart s base).m_mercyRuleThreshold = ((3 * n * n / 10 : Nat) : Int) := by
  have hn : n ≤ 84606 := by
    by_contra hcon
    have h2 : 84607 ≤ n := by omega
    have h3 : 84607 * 84607 ≤ n * n := Nat.mul_le_mul h2 h2
    have h4 : 3 * n * n = 3 * (n * n) := by ring
    rw [h4] at hfit
    omega
  unfold GameStart
  simp only [hsize]
  have hc : doubleThreeTenths = ((5404319552844595 : Nat) : Int) := rfl
  rw [hc, mulDouble_natCast, mulDouble_natCast, truncToInt_natCast,
    truncated_product_eq _ n rfl hn]

/-- C15 (witness): on the 9x9 board the threshold after `GameStart` is 24, on 19x19 it is
108. -/
theorem GameStart_threshold_witness :
    (GameStart passExample passExample.toGoUctState).m_mercyRuleThreshold = 24
    ∧ (GameStart passExample
        { passExample.toGoUctState with
          m_bd := exampleBoard 19 0 SgBlackWhite.SG_BLACK false false 0 0 0 0 }).m_mercyRuleThreshold
        = 108 :=
  ⟨(GameStart_threshold passExample passExample.toGoUctState 9 rfl
      (by decide)).trans (by decide),
   (GameStart_threshold passExample
      { passExample.toGoUctState with
        m_bd := exampleBoard 19 0 SgBlackWhite.SG_BLACK false false 0 0 0 0 } 19 rfl
      (by decide)).trans (by decide)⟩

/-! ### The stone differential -/

/-- C11 (evaluation at the failing input): `StartPlayout` on the empty 9x9 board sets the
stone differential to 0; Black then plays a stone that captures nothing, which puts one
black stone on the playout board; after `ExecutePlayout` the stone differential is still 0
while the board holds one black stone more than white stones. -/
theorem stoneDiff_ignores_placed_stone :
    (StartPlayout passExample passExample.toGoUctState).m_stoneDiff = 0
    ∧ oneStoneBase.m_uctBd.AllSize SgBlackWhite.SG_BLACK
        = passExample.m_uctBd.AllSize SgBlackWhite.SG_BLACK + 1
    ∧ oneStoneBase.m_uctBd.AllSize SgBlackWhite.SG_WHITE
        = passExample.m_uctBd.AllSize SgBlackWhite.SG_WHITE - oneStoneBase.m_uctBd.NuCapturedStones
    ∧ (ExecutePlayout (StartPlayout passExample passExample.toGoUctState)
        (SgMove.point 0) oneStoneBase).m_stoneDiff = 0
    ∧ (ExecutePlayout (StartPlayout passExample passExample.toGoUctState)
        (SgMove.point 0) oneStoneBase).m_uctBd.AllSize SgBlackWhite.SG_BLACK
      - (ExecutePlayout (StartPlayout passExample passExample.toGoUctState)
        (SgMove.point 0) oneStoneBase).m_uctBd.AllSize SgBlackWhite.SG_WHITE = 1 := by
  refine ⟨?_, ?_, ?_, ?_, ?_⟩ <;>
    simp [StartPlayout, ExecutePlayout, passExample, oneStoneBase, exampleState, exampleBoard]

/-- What `ExecutePlayout` does maintain: when the move places one stone of the mover and
removes the reported number of opponent stones, the gap between the stone differential and
the true difference of stones moves by one, down after a Black stone and up after a White
stone. -/
theorem ExecutePlayout_stoneDiff_gap (s : GoUctGlobalSearchState) (m : SgMove)
    (base : GoUctState) :
    (base.m_uctBd.ToPlay = SgBlackWhite.SG_WHITE →
      base.m_uctBd.AllSize SgBlackWhite.SG_BLACK
        = s.m_uctBd.AllSize SgBlackWhite.SG_BLACK + 1 →
      base.m_uctBd.AllSize SgBlackWhite.SG_WHITE
        = s.m_uctBd.AllSize SgBlackWhite.SG_WHITE - base.m_uctBd.NuCapturedStones →
      (ExecutePlayout s m base).m_stoneDiff
          - ((ExecutePlayout s m base).m_uctBd.AllSize SgBlackWhite.SG_BLACK
            - (ExecutePlayout s m base).m_uctBd.AllSize SgBlackWhite.SG_WHITE)
        = s.m_stoneDiff
          - (s.m_uctBd.AllSize SgBlackWhite.SG_BLACK
            - s.m_uctBd.AllSize SgBlackWhite.SG_WHITE) - 1)
    ∧ (base.m_uctBd.ToPlay = SgBlackWhite.SG_BLACK →
      base.m_uctBd.AllSize SgBlackWhite.SG_WHITE
        = s.m_uctBd.AllSize SgBlackWhite.SG_WHITE + 1 →
      base.m_uctBd.AllSize SgBlackWhite.SG_BLACK
        = s.m_uctBd.AllSize SgBlackWhite.SG_BLACK - base.m_uctBd.NuCapturedStones →
      (ExecutePlayout s m base).m_stoneDiff
          - ((ExecutePlayout s m base).m_uctBd.AllSize SgBlackWhite.SG_BLACK
            - (ExecutePlayout s m base).m_uctBd.AllSize SgBlackWhite.SG_WHITE)
        = s.m_stoneDiff
          - (s.m_uctBd.AllSize SgBlackWhite.SG_BLACK
            - s.m_uctBd.AllSize SgBlackWhite.SG_WHITE) + 1) := by
  constructor
  · intro hp hb hw
    simp only [ExecutePlayout, hp, hb, hw]
    simp
    ring
  · intro hp hw hb
    simp only [ExecutePlayout, hp, hb, hw]
    simp
    ring

/-- C12: for every move, after the move has been applied to the board with `c` stones
captured by it, `ExecutePlayout` leaves the stone differential at the old one minus `c` when
Black is to move on the post-move board and at the old one plus `c` otherwise; the pass
counter, the mercy trigger flag, the latched mercy result, the threshold and `m_invMaxScore`
are unchanged. -/
theorem ExecutePlayout_update (s : GoUctGlobalSearchState) (m : SgMove) (base : GoUctState)
    (c : Int) (hc : base.m_uctBd.NuCapturedStones = c) :
    (base.m_uctBd.ToPlay = SgBlackWhite.SG_BLACK →
      (ExecutePlayout s m base).m_stoneDiff = s.m_stoneDiff - c)
    ∧ (base.m_uctBd.ToPlay ≠ SgBlackWhite.SG_BLACK →
      (ExecutePlayout s m base).m_stoneDiff = s.m_stoneDiff + c)
    ∧ (ExecutePlayout s m base).m_passMovesPlayoutPhase = s.m_passMovesPlayoutPhase
    ∧ (ExecutePlayout s m base).m_mercyRuleTriggered = s.m_mercyRuleTriggered
    ∧ (ExecutePlayout s m base).m_mercyRuleResult = s.m_mercyRuleResult
    ∧ (ExecutePlayout s m base).m_mercyRuleThreshold = s.m_mercyRuleThreshold
    ∧ (ExecutePlayout s m base).m_invMaxScore = s.m_invMaxScore := by
  refine ⟨?_, ?_, rfl, rfl, rfl, rfl, rfl⟩
  · intro h
    simp [ExecutePlayout, h, hc]
  · intro h
    simp [ExecutePlayout, h, hc]

/-- C12 (witness): with White to move after the move and nothing captured the differential
of the example stays 0 and the pass counter stays 0. -/
theorem ExecutePlayout_update_witness :
    (ExecutePlayout passExample (SgMove.point 0) oneStoneBase).m_stoneDiff = 0 + 0
    ∧ (ExecutePlayout passExample (SgMove.point 0) oneStoneBase).m_passMovesPlayoutPhase = 0 :=
  ⟨(ExecutePlayout_update passExample (SgMove.point 0) oneStoneBase 0 rfl).2.1 (by decide),
   (ExecutePlayout_update passExample (SgMove.point 0) oneStoneBase 0 rfl).2.2.1⟩

/-- C13: whatever the state before, after `StartPlayout` the consecutive-pass counter is 0,
the mercy trigger flag is false, and the stone differential is the number of black stones
minus the number of white stones of the bound board; it is read from the board, so two
states with any previous differentials get the same one. -/
theorem StartPlayout_post (s s2 : GoUctGlobalSearchState) (base : GoUctState) :
    (StartPlayout s base).m_passMovesPlayoutPhase = 0
    ∧ (StartPlayout s base).m_mercyRuleTriggered = false
    ∧ (StartPlayout s base).m_stoneDiff
        = (StartPlayout s base).m_bd.AllSize SgBlackWhite.SG_BLACK
          - (StartPlayout s base).m_bd.AllSize SgBlackWhite.SG_WHITE
    ∧ (StartPlayout s base).m_stoneDiff = (StartPlayout s2 base).m_stoneDiff
    ∧ (StartPlayout s base).m_policy.nuStartPlayout = s.m_policy.nuStartPlayout + 1 :=
  ⟨rfl, rfl, rfl, rfl, rfl⟩

/-! ### A non-pass move resets the pass counter -/

/-- C18: whenever the mercy rule does not trigger and the policy returns a move `m` other
than the pass move, `GeneratePlayoutMove` returns exactly `m`, leaves the caller's flag
alone and sets the consecutive-pass counter to 0 whatever it was; hence when the policy
passes on the following call, that pass is returned as a pass (counter 1), not as the
no-move signal. -/
theorem GeneratePlayoutMove_nonpass (s : GoUctGlobalSearchState) (f : Bool) (m : SgMove)
    (hq : mercyTriggers s = false)
    (hm : s.m_policy.moves s.m_policy.nuGenerateMove = m) (hne : m ≠ SgMove.SG_PASS) :
    (GeneratePlayoutMove s f).1 = m
    ∧ (GeneratePlayoutMove s f).2.1 = f
    ∧ (GeneratePlayoutMove s f).2.2.m_passMovesPlayoutPhase = 0
    ∧ ∀ (base : GoUctState) (f2 : Bool),
        mercyTriggers (ExecutePlayout (GeneratePlayoutMove s f).2.2 m base) = false →
        s.m_policy.moves (s.m_policy.nuGenerateMove + 1) = SgMove.SG_PASS →
        (GeneratePlayoutMove (ExecutePlayout (GeneratePlayoutMove s f).2.2 m base) f2).1
            = SgMove.SG_PASS
        ∧ (GeneratePlayoutMove
            (ExecutePlayout (GeneratePlayoutMove s f).2.2 m base) f2).2.2.m_passMovesPlayoutPhase
            = 1 := by
  have hc := check_of_not_mercyTriggers s hq
  have e : GeneratePlayoutMove s f
      = (m, f, { s with m_policy := s.m_policy.GenerateMove.2, m_passMovesPlayoutPhase := 0 }) := by
    unfold GeneratePlayoutMove
    simp only [hc, POLICY.GenerateMove, hm, hne, if_false, Bool.false_eq_true]
  rw [e]
  refine ⟨rfl, rfl, rfl, ?_⟩
  intro base f2 hq2 hp2
  have h := GeneratePlayoutMove_pass _ f2 hq2 (by
    simpa [ExecutePlayout, POLICY.OnPlay, POLICY.GenerateMove] using hp2)
  obtain ⟨h1, h2⟩ := h.1 (by simp [ExecutePlayout])
  refine ⟨h1, ?_⟩
  rw [h2]
  simp [ExecutePlayout]

/-- C18 (witness): on the 9x9 example, a policy that answers the point 40 and then passes:
the point is returned with counter 0 although the counter was 2 before, and the pass that
follows is returned as a pass. -/
theorem GeneratePlayoutMove_nonpass_witness :
    (GeneratePlayoutMove
      { passExample with
        m_passMovesPlayoutPhase := 2
        m_policy := { passPolicy with
          moves := fun i => if i = 0 then SgMove.point 40 else SgMove.SG_PASS } } false).1
        = SgMove.point 40
    ∧ (GeneratePlayoutMove
      { passExample with
        m_passMovesPlayoutPhase := 2
        m_policy := { passPolicy with
          moves := fun i => if i = 0 then SgMove.point 40 else SgMove.SG_PASS } }
        false).2.2.m_passMovesPlayoutPhase = 0 :=
  have h := GeneratePlayoutMove_nonpass
    { passExample with
      m_passMovesPlayoutPhase := 2
      m_policy := { passPolicy with
        moves := fun i => if i = 0 then SgMove.point 40 else SgMove.SG_PASS } }
    false (SgMove.point 40) rfl rfl (by decide)
  ⟨h.1, h.2.2.1⟩

/-! ### Invariants of a playout -/

/-- The state after `EvaluateBoard` differs from the state before in the territory
statistics only. -/
theorem EvaluateBoard_frame (s : GoUctGlobalSearchState) (bd : GoBoard) (komi : ℚ) :
    (EvaluateBoard s bd komi).2 = s
    ∨ ∃ st, (EvaluateBoard s bd komi).2 = { s with m_territoryStatistics := st } := by
  unfold EvaluateBoard
  rcases h1 : bd.TrompTaylorScore komi with ⟨sc1, sb1⟩
  rcases h2 : bd.ScoreEndPosition komi s.m_safe false with ⟨sc2, sb2⟩
  by_cases hc : s.m_passMovesPlayoutPhase < 2
  · simp only [hc, if_true]
    split_ifs <;> first | exact Or.inl rfl | exact Or.inr ⟨_, rfl⟩
  · by_cases hm : (s.m_param.m_mercyRule && s.m_mercyRuleTriggered) = true
    · left
      simp only [hc, hm, if_true, if_false]
    · simp only [hc, hm, if_false]
      split_ifs <;> (try split) <;> (try split_ifs) <;>
        first | exact Or.inl rfl | exact Or.inr ⟨_, rfl⟩

/-- The same for `Evaluate`. -/
theorem Evaluate_frame (s : GoUctGlobalSearchState) :
    (Evaluate s).2 = s
    ∨ ∃ st, (Evaluate s).2 = { s with m_territoryStatistics := st } := by
  unfold Evaluate
  split_ifs
  · exact EvaluateBoard_frame s s.m_uctBd s.m_bd.Rules.Komi
  · exact EvaluateBoard_frame s s.m_bd s.m_bd.Rules.Komi

/-- One call keeps the pass counter between 0 and 2. -/
theorem runCall_passCounter (s : GoUctGlobalSearchState) (c : PlayoutCall)
    (h0 : 0 ≤ s.m_passMovesPlayoutPhase) (h2 : s.m_passMovesPlayoutPhase ≤ 2) :
    0 ≤ (runCall s c).2.m_passMovesPlayoutPhase
    ∧ (runCall s c).2.m_passMovesPlayoutPhase ≤ 2 := by
  cases c with
  | generatePlayoutMove f =>
    simp only [runCall, GeneratePlayoutMove, CheckMercyRule, POLICY.GenerateMove]
    split_ifs <;> simp_all <;> omega
  | executePlayout m base => exact ⟨h0, h2⟩
  | evaluate =>
    simp only [runCall]
    rcases Evaluate_frame s with h | ⟨st, h⟩ <;> rw [h] <;> exact ⟨h0, h2⟩
  | endPlayout base => exact ⟨h0, h2⟩

/-- A sequence of calls keeps the pass counter between 0 and 2. -/
theorem runCalls_passCounter : ∀ (calls : List PlayoutCall) (s : GoUctGlobalSearchState),
    0 ≤ s.m_passMovesPlayoutPhase → s.m_passMovesPlayoutPhase ≤ 2 →
    0 ≤ (runCalls s calls).2.m_passMovesPlayoutPhase
    ∧ (runCalls s calls).2.m_passMovesPlayoutPhase ≤ 2
  | [], _, h0, h2 => ⟨h0, h2⟩
  | c :: cs, s, h0, h2 => by
    obtain ⟨a0, a2⟩ := runCall_passCounter s c h0 h2
    exact runCalls_passCounter cs (runCall s c).2 a0 a2

/-- C17: in every state reached from `StartPlayout` by any sequence of
`GeneratePlayoutMove` (whatever the policy answers), `ExecutePlayout`, `Evaluate` and
`EndPlayout` calls, the consecutive-pass counter is 0, 1 or 2. -/
theorem passCounter_invariant (s : GoUctGlobalSearchState) (base : GoUctState)
    (calls : List PlayoutCall) :
    (runCalls (StartPlayout s base) calls).2.m_passMovesPlayoutPhase = 0
    ∨ (runCalls (StartPlayout s base) calls).2.m_passMovesPlayoutPhase = 1
    ∨ (runCalls (StartPlayout s base) calls).2.m_passMovesPlayoutPhase = 2 := by
  obtain ⟨h0, h2⟩ := runCalls_passCounter calls (StartPlayout s base)
    (le_of_eq rfl) (by show (0 : Int) ≤ 2; decide)
  omega

/-! ### No stale state across playouts -/

/-- While the trigger flag is clear, `EvaluateBoard` does not read the latched result. -/
theorem EvaluateBoard_stale (s : GoUctGlobalSearchState) (r : ℚ) (bd : GoBoard) (komi : ℚ)
    (hf : s.m_mercyRuleTriggered = false) :
    (EvaluateBoard { s with m_mercyRuleResult := r } bd komi).1 = (EvaluateBoard s bd komi).1
    ∧ (EvaluateBoard s bd komi).2.m_mercyRuleTriggered = false
    ∧ (EvaluateBoard { s with m_mercyRuleResult := r } bd komi).2
        = { (EvaluateBoard s bd komi).2 with m_mercyRuleResult := r } := by
  unfold EvaluateBoard
  rcases h1 : bd.TrompTaylorScore komi with ⟨sc1, sb1⟩
  rcases h2 : bd.ScoreEndPosition komi s.m_safe false with ⟨sc2, sb2⟩
  have hm : (s.m_param.m_mercyRule && s.m_mercyRuleTriggered) = false := by simp [hf]
  by_cases hc : s.m_passMovesPlayoutPhase < 2
  · simp only [hc, if_true]
    split_ifs <;> exact ⟨rfl, hf, rfl⟩
  · simp only [hc, hm, if_false, Bool.false_eq_true, h2]
    split_ifs <;> exact ⟨rfl, hf, rfl⟩

/-- One call cannot tell apart two states that differ in the latched result only, as long as
the trigger flag is clear: the answers agree, and afterwards the states are equal or still
differ in the latched result only, with the flag clear. -/
theorem runCall_stale (s : GoUctGlobalSearchState) (r : ℚ) (c : PlayoutCall)
    (hf : s.m_mercyRuleTriggered = false) :
    (runCall { s with m_mercyRuleResult := r } c).1 = (runCall s c).1
    ∧ ((runCall { s with m_mercyRuleResult := r } c).2 = (runCall s c).2
      ∨ ((runCall s c).2.m_mercyRuleTriggered = false
        ∧ (runCall { s with m_mercyRuleResult := r } c).2
            = { (runCall s c).2 with m_mercyRuleResult := r })) := by
  cases c with
  | generatePlayoutMove f =>
    simp only [runCall, GeneratePlayoutMove, CheckMercyRule, POLICY.GenerateMove]
    split_ifs <;> first
      | exact ⟨rfl, Or.inl rfl⟩
      | exact ⟨rfl, Or.inr ⟨hf, rfl⟩⟩
  | executePlayout m base => exact ⟨rfl, Or.inr ⟨hf, rfl⟩⟩
  | evaluate =>
    simp only [runCall, Evaluate]
    split_ifs
    · obtain ⟨a, b, c⟩ := EvaluateBoard_stale s r s.m_uctBd s.m_bd.Rules.Komi hf
      exact ⟨congrArg PlayoutAnswer.value a, Or.inr ⟨b, c⟩⟩
    · obtain ⟨a, b, c⟩ := EvaluateBoard_stale s r s.m_bd s.m_bd.Rules.Komi hf
      exact ⟨congrArg PlayoutAnswer.value a, Or.inr ⟨b, c⟩⟩
  | endPlayout base => exact ⟨rfl, Or.inr ⟨hf, rfl⟩⟩

/-- A sequence of calls cannot tell such states apart either. -/
theorem runCalls_stale : ∀ (calls : List PlayoutCall) (s : GoUctGlobalSearchState) (r : ℚ),
    s.m_mercyRuleTriggered = false →
    (runCalls { s with m_mercyRuleResult := r } calls).1 = (runCalls s calls).1
  | [], _, _, _ => rfl
  | c :: cs, s, r, hf => by
    obtain ⟨h1, h2⟩ := runCall_stale s r c hf
    simp only [runCalls]
    rw [h1]
    rcases h2 with h2 | ⟨hf2, h2⟩
    · rw [h2]
    · rw [h2, runCalls_stale cs (runCall s c).2 r hf2]

/-- C14: two states that agree on the board, the configuration, the policy, the mercy
threshold and `m_invMaxScore` and differ arbitrarily in pass counter, stone differential,
mercy trigger flag and latched mercy result give, after `StartPlayout`, the same returned
moves, flags and `Evaluate` values on every sequence of `GeneratePlayoutMove`,
`ExecutePlayout`, `Evaluate` and `EndPlayout` calls with the same board answers. -/
theorem no_stale_playout_state (s : GoUctGlobalSearchState) (passes diff : Int)
    (triggered : Bool) (result : ℚ) (base : GoUctState) (calls : List PlayoutCall) :
    (runCalls
      (StartPlayout
        { s with
          m_passMovesPlayoutPhase := passes
          m_stoneDiff := diff
          m_mercyRuleTriggered := triggered
          m_mercyRuleResult := result } base) calls).1
      = (runCalls (StartPlayout s base) calls).1 :=
  runCalls_stale calls (StartPlayout s base) result rfl

/-! ### Termination of the playout loop -/

/-- What a call of `GeneratePlayoutMove` can return: it leaves the boards alone, and it gives
the no-move signal, or a point with the pass counter reset, or a pass counted on a counter
that was below 2. -/
theorem GeneratePlayoutMove_outcome (s : GoUctGlobalSearchState) (f : Bool) :
    (GeneratePlayoutMove s f).2.2.toGoUctState = s.toGoUctState
    ∧ ((GeneratePlayoutMove s f).1 = SgMove.SG_NULLMOVE
      ∨ (∃ p, (GeneratePlayoutMove s f).1 = SgMove.point p
          ∧ (GeneratePlayoutMove s f).2.2.m_passMovesPlayoutPhase = 0)
      ∨ ((GeneratePlayoutMove s f).1 = SgMove.SG_PASS
          ∧ s.m_passMovesPlayoutPhase < 2
          ∧ (GeneratePlayoutMove s f).2.2.m_passMovesPlayoutPhase
              = s.m_passMovesPlayoutPhase + 1)) := by
  simp only [GeneratePlayoutMove, CheckMercyRule, POLICY.GenerateMove]
  split_ifs with h1 h2 h3 h4 h5 h6 h7 h8 h9 <;>
    first
      | exact ⟨rfl, Or.inl rfl⟩
      | exact ⟨rfl, Or.inr (Or.inr ⟨by assumption, by assumption, rfl⟩)⟩
      | (refine ⟨rfl, ?_⟩
         cases hmv : s.m_policy.moves s.m_policy.nuGenerateMove with
         | point p => exact Or.inr (Or.inl ⟨p, rfl, rfl⟩)
         | SG_PASS => simp_all
         | SG_NULLMOVE => exact Or.inl rfl)

/-- The playout loop gives the no-move signal within its potential: three times the rank of
the position plus what is left of the pass counter. -/
theorem playoutLoop_within_potential (play : GoUctState → SgMove → GoUctState)
    (rank : GoUctState → Nat) (s0 : GoUctGlobalSearchState)
    (hmove : ∀ t, PlayoutReaches play s0 t → ∀ p,
      (GeneratePlayoutMove t false).1 = SgMove.point p →
      rank (play t.toGoUctState (SgMove.point p)) < rank t.toGoUctState)
    (hpass : ∀ t, PlayoutReaches play s0 t →
      (GeneratePlayoutMove t false).1 = SgMove.SG_PASS →
      rank (play t.toGoUctState SgMove.SG_PASS) ≤ rank t.toGoUctState) :
    ∀ (fuel : Nat) (t : GoUctGlobalSearchState), PlayoutReaches play s0 t →
      0 ≤ t.m_passMovesPlayoutPhase → t.m_passMovesPlayoutPhase ≤ 2 →
      3 * rank t.toGoUctState + (2 - t.m_passMovesPlayoutPhase).toNat < fuel →
      ∃ n, n ≤ 3 * rank t.toGoUctState + (2 - t.m_passMovesPlayoutPhase).toNat
        ∧ playoutLoop play fuel t = some n
  | 0, _, _, _, _, hlt => absurd hlt (Nat.not_lt_zero _)
  | fuel + 1, t, hreach, h0, h2, hlt => by
    obtain ⟨hbase, hout⟩ := GeneratePlayoutMove_outcome t false
    unfold playoutLoop
    cases hround : playoutRound play t with
    | none => exact ⟨0, Nat.zero_le _, rfl⟩
    | some t1 =>
      have hreach1 : PlayoutReaches play s0 t1 := PlayoutReaches.round hreach hround
      unfold playoutRound at hround
      by_cases hnull : (GeneratePlayoutMove t false).1 = SgMove.SG_NULLMOVE
      · rw [if_pos hnull] at hround
        exact absurd hround (by simp)
      · rw [if_neg hnull] at hround
        have ht1 : t1 = ExecutePlayout (GeneratePlayoutMove t false).2.2
            (GeneratePlayoutMove t false).1
            (play (GeneratePlayoutMove t false).2.2.toGoUctState
              (GeneratePlayoutMove t false).1) := (Option.some.inj hround).symm
        have hb1 : t1.toGoUctState
            = play t.toGoUctState (GeneratePlayoutMove t false).1 := by
          rw [ht1, ← hbase]; rfl
        have hc1 : t1.m_passMovesPlayoutPhase
            = (GeneratePlayoutMove t false).2.2.m_passMovesPlayoutPhase := by
          rw [ht1]; rfl
        rcases hout with hn | ⟨p, hp, hc⟩ | ⟨hp, hlt2, hc⟩
        · exact absurd hn hnull
        · have hr := hmove t hreach p hp
          rw [hp] at hb1
          rw [hc] at hc1
          obtain ⟨n, hn, hl⟩ := playoutLoop_within_potential play rank s0 hmove hpass fuel t1
            hreach1 (by rw [hc1]) (by rw [hc1]; decide) (by rw [hb1, hc1]; omega)
          refine ⟨n + 1, ?_, ?_⟩
          · rw [hb1, hc1] at hn; omega
          · simp only [hl, Option.map_some']
        · have hr := hpass t hreach hp
          rw [hp] at hb1
          rw [hc] at hc1
          obtain ⟨n, hn, hl⟩ := playoutLoop_within_potential play rank s0 hmove hpass fuel t1
            hreach1 (by rw [hc1]; omega) (by rw [hc1]; omega) (by rw [hb1, hc1]; omega)
          refine ⟨n + 1, ?_, ?_⟩
          · rw [hb1, hc1] at hn; omega
          · simp only [hl, Option.map_some']

/-- C20: for every state, board and policy, if the rules engine admits a rank of positions
that every non-pass move played in the playout strictly lowers and no pass played in it
raises (no position recurs: absent superko cycles the positions not yet seen are such a
rank), the playout loop `StartPlayout; repeat GeneratePlayoutMove / ExecutePlayout` reaches
the no-move signal after at most `3*rank + 2` plies. -/
theorem playout_terminates (play : GoUctState → SgMove → GoUctState)
    (rank : GoUctState → Nat) (s : GoUctGlobalSearchState) (base : GoUctState)
    (hmove : ∀ t, PlayoutReaches play (StartPlayout s base) t → ∀ p,
      (GeneratePlayoutMove t false).1 = SgMove.point p →
      rank (play t.toGoUctState (SgMove.point p)) < rank t.toGoUctState)
    (hpass : ∀ t, PlayoutReaches play (StartPlayout s base) t →
      (GeneratePlayoutMove t false).1 = SgMove.SG_PASS →
      rank (play t.toGoUctState SgMove.SG_PASS) ≤ rank t.toGoUctState) :
    ∃ n, n ≤ 3 * rank base + 2
      ∧ playoutLoop play (3 * rank base + 3) (StartPlayout s base) = some n :=
  playoutLoop_within_potential play rank (StartPlayout s base) hmove hpass
    (3 * rank base + 3) (StartPlayout s base) PlayoutReaches.start
    (le_of_eq rfl) (by show (0 : Int) ≤ 2; decide)
    (by show 3 * rank base + (2 - (0 : Int)).toNat < 3 * rank base + 3; simp)

/-- A call of `GeneratePlayoutMove` that returns a move returns the answer of the policy and
has asked the policy exactly once. -/
theorem GeneratePlayoutMove_of_move (s : GoUctGlobalSearchState) (f : Bool)
    (h : (GeneratePlayoutMove s f).1 ≠ SgMove.SG_NULLMOVE) :
    (GeneratePlayoutMove s f).1 = s.m_policy.moves s.m_policy.nuGenerateMove
    ∧ (GeneratePlayoutMove s f).2.2.m_policy.moves = s.m_policy.moves
    ∧ (GeneratePlayoutMove s f).2.2.m_policy.nuGenerateMove
        = s.m_policy.nuGenerateMove + 1 := by
  revert h
  simp only [GeneratePlayoutMove, CheckMercyRule, POLICY.GenerateMove]
  split_ifs <;> simp_all

/-- Along the playout loop the answers of the policy stay the same and every state after the
first has asked the policy at least once more. -/
theorem PlayoutReaches_policy (play : GoUctState → SgMove → GoUctState)
    (s0 t : GoUctGlobalSearchState) (h : PlayoutReaches play s0 t) :
    t.m_policy.moves = s0.m_policy.moves
    ∧ (t = s0 ∨ s0.m_policy.nuGenerateMove < t.m_policy.nuGenerateMove) := by
  induction h with
  | start => exact ⟨rfl, Or.inl rfl⟩
  | round hreach hround ih =>
    rename_i u u1
    unfold playoutRound at hround
    by_cases hnull : (GeneratePlayoutMove u false).1 = SgMove.SG_NULLMOVE
    · rw [if_pos hnull] at hround
      exact absurd hround (by simp)
    · rw [if_neg hnull] at hround
      obtain ⟨-, hm, hn⟩ := GeneratePlayoutMove_of_move u false hnull
      have hu1 := (Option.some.inj hround).symm
      have e1 : u1.m_policy.moves = (GeneratePlayoutMove u false).2.2.m_policy.moves := by
        rw [hu1]; rfl
      have e2 : u1.m_policy.nuGenerateMove
          = (GeneratePlayoutMove u false).2.2.m_policy.nuGenerateMove := by
        rw [hu1]; rfl
      refine ⟨by rw [e1, hm, ih.1], Or.inr ?_⟩
      rw [e2, hn]
      rcases ih.2 with h | h
      · rw [h]; omega
      · omega

/-- C20 (witness): on the empty 9x9 board with a policy that plays one point and then passes,
and the rank that counts that one move, the loop gives the no-move signal after exactly 3
plies (the point and two passes), within the bound `3*1 + 2`. -/
theorem playout_terminates_witness :
    (∃ n, n ≤ 3 * countingRank onePointExample.toGoUctState + 2
      ∧ playoutLoop countingPlay (3 * countingRank onePointExample.toGoUctState + 3)
          (StartPlayout onePointExample onePointExample.toGoUctState) = some n)
    ∧ playoutLoop countingPlay 6
        (StartPlayout onePointExample onePointExample.toGoUctState) = some 3 := by
  refine ⟨playout_terminates countingPlay countingRank onePointExample
    onePointExample.toGoUctState ?_ ?_, ?_⟩
  · intro t ht p hp
    obtain ⟨hm, hn⟩ := PlayoutReaches_policy _ _ _ ht
    rcases hn with h | h
    · subst h
      simp [countingPlay, countingRank, StartPlayout, onePointExample, passExample,
        exampleState, exampleBoard]
    · have hnull : (GeneratePlayoutMove t false).1 ≠ SgMove.SG_NULLMOVE := by
        rw [hp]; simp
      obtain ⟨h1, -, -⟩ := GeneratePlayoutMove_of_move t false hnull
      rw [hp, hm] at h1
      have h0 : t.m_policy.nuGenerateMove ≠ 0 := by omega
      simp [StartPlayout, POLICY.StartPlayout, onePointExample, h0] at h1
  · intro t _ _
    exact le_of_eq rfl
  · simp [playoutLoop, playoutRound, GeneratePlayoutMove, ExecutePlayout, StartPlayout,
      POLICY.GenerateMove, POLICY.OnPlay, POLICY.StartPlayout, countingPlay, onePointExample,
      passExample, passPolicy, exampleState, plainParam]

end GoUctGlobalSearchState

namespace GoUctGlobalSearch

/-! ### Live graphics without territory statistics -/

/-- C19 (counterexample): with live graphics requested and territory statistics off,
`OnStartSearch` writes the warning, and `OnSearchIteration` for game number 0 on thread 0
still writes the live-graphics output. -/
theorem live_output_not_disabled :
    liveGfxExample.m_globalSearchLiveGfx = true
    ∧ liveGfxExample.m_param.m_territoryStatistics = false
    ∧ (OnStartSearch liveGfxExample (fun _ _ => false)).warning
        = [WarningOutput.liveGfxNeedsTerritoryStatistics]
    ∧ (OnSearchIteration (OnStartSearch liveGfxExample (fun _ _ => false)) 0 0).debug
        = [DebugOutput.goguiGfxHeader, DebugOutput.GfxBestMove,
           DebugOutput.GfxTerritoryStatistics, DebugOutput.GfxStatus, DebugOutput.newline]
    ∧ (OnSearchIteration (OnStartSearch liveGfxExample (fun _ _ => false)) 0 0).debug ≠ [] := by
  simp [OnStartSearch, OnSearchIteration, liveGfxExample, GOUCT_USE_SAFETY_SOLVER]

/-- C19 (amended): when live graphics are requested while territory statistics are not
enabled, `OnStartSearch` writes one warning and completes with the safety information reset
(no point safe for either colour), the live-graphics request and the parameters unchanged;
during that search `OnSearchIteration` is not disabled: with a positive live-graphics
interval it writes the live-graphics output exactly for thread 0 and the game numbers that
the interval divides, and nothing otherwise. -/
theorem OnStartSearch_liveGfx_warning (g : GoUctGlobalSearch) (solverSafe : SgBWSet)
    (hgfx : g.m_globalSearchLiveGfx = true) (hterr : g.m_param.m_territoryStatistics = false)
    (hint : 0 < g.LiveGfxInterval) :
    (OnStartSearch g solverSafe).warning
        = g.warning ++ [WarningOutput.liveGfxNeedsTerritoryStatistics]
    ∧ (∀ c p, (OnStartSearch g solverSafe).m_safe c p = false)
    ∧ (∀ p, (OnStartSearch g solverSafe).m_allSafe p = false)
    ∧ (OnStartSearch g solverSafe).debug = g.debug
    ∧ ∀ (gameNumber : Nat) (threadId : Int),
        (threadId = 0 ∧ g.LiveGfxInterval ∣ gameNumber →
          (OnSearchIteration (OnStartSearch g solverSafe) gameNumber threadId).debug
            = g.debug ++ [DebugOutput.goguiGfxHeader, DebugOutput.GfxBestMove,
                DebugOutput.GfxTerritoryStatistics, DebugOutput.GfxStatus,
                DebugOutput.newline])
        ∧ (¬ (threadId = 0 ∧ g.LiveGfxInterval ∣ gameNumber) →
          (OnSearchIteration (OnStartSearch g solverSafe) gameNumber threadId).debug
            = g.debug) := by
  have e : OnStartSearch g solverSafe
      = { g with
          m_safe := fun _ _ => false
          m_allSafe := fun _ => false
          warning := g.warning ++ [WarningOutput.liveGfxNeedsTerritoryStatistics] } := by
    simp [OnStartSearch, GOUCT_USE_SAFETY_SOLVER, hgfx, hterr]
  rw [e]
  refine ⟨rfl, fun _ _ => rfl, fun _ => rfl, rfl, ?_⟩
  intro gameNumber threadId
  have _ := hint
  constructor
  · rintro ⟨h1, h2⟩
    have h3 : gameNumber % g.LiveGfxInterval = 0 := Nat.mod_eq_zero_of_dvd h2
    simp [OnSearchIteration, hgfx, h1, h3]
  · intro h
    have h3 : ¬ (threadId = 0 ∧ gameNumber % g.LiveGfxInterval = 0) := by
      rintro ⟨h1, h2⟩
      exact h ⟨h1, Nat.dvd_of_mod_eq_zero h2⟩
    simp only [OnSearchIteration, hgfx, Bool.true_and]
    by_cases h1 : threadId = 0
    · have h2 : ¬ gameNumber % g.LiveGfxInterval = 0 := fun h2 => h3 ⟨h1, h2⟩
      simp [h1, h2]
    · simp [h1]

/-- C19 (witness): on the example controller (interval 5000) the warning is written, game
5000 on thread 0 writes the live-graphics output and game 1 writes nothing. -/
theorem OnStartSearch_liveGfx_warning_witness :
    (OnStartSearch liveGfxExample (fun _ _ => false)).warning
        = [WarningOutput.liveGfxNeedsTerritoryStatistics]
    ∧ (OnSearchIteration (OnStartSearch liveGfxExample (fun _ _ => false)) 5000 0).debug
        = [DebugOutput.goguiGfxHeader, DebugOutput.GfxBestMove,
           DebugOutput.GfxTerritoryStatistics, DebugOutput.GfxStatus, DebugOutput.newline]
    ∧ (OnSearchIteration (OnStartSearch liveGfxExample (fun _ _ => false)) 1 0).debug = [] :=
  have h := OnStartSearch_liveGfx_warning liveGfxExample (fun _ _ => false) rfl rfl
    (by decide)
  ⟨h.1, (h.2.2.2.2 5000 0).1 ⟨rfl, by decide⟩,
   (h.2.2.2.2 1 0).2 (by decide)⟩

end GoUctGlobalSearch

namespace GoUctGlobalSearchState

/-! ### The skip-statistics flag -/

/-- C22: `GeneratePlayoutMove` hands back the caller's `skipRaveUpdate` flag set to true in
exactly the calls in which the policy was asked and answered with a pass (the call that
then returns the no-move signal included); in every other call, whether the policy answered
with another move or the mercy rule ended the game before the policy was asked, the flag
comes back as the caller passed it. -/
theorem GeneratePlayoutMove_skipRaveUpdate (s : GoUctGlobalSearchState) (f : Bool) :
    ((GeneratePlayoutMove s f).2.1 =
      if mercyTriggers s = false
          ∧ s.m_policy.moves s.m_policy.nuGenerateMove = SgMove.SG_PASS then true else f)
    ∧ ((GeneratePlayoutMove s f).2.2.m_policy.nuGenerateMove =
      if mercyTriggers s = false then s.m_policy.nuGenerateMove + 1
      else s.m_policy.nuGenerateMove)
    ∧ (mercyTriggers s = false →
        s.m_policy.moves s.m_policy.nuGenerateMove = SgMove.SG_PASS →
        ¬ s.m_passMovesPlayoutPhase < 2 →
        (GeneratePlayoutMove s f).1 = SgMove.SG_NULLMOVE ∧ (GeneratePlayoutMove s f).2.1 = true)
    ∧ (mercyTriggers s = true →
        (GeneratePlayoutMove s f).1 = SgMove.SG_NULLMOVE ∧ (GeneratePlayoutMove s f).2.1 = f
        ∧ (GeneratePlayoutMove s f).2.2.m_policy = s.m_policy) := by
  cases hq : mercyTriggers s with
  | false =>
    have hc := check_of_not_mercyTriggers s hq
    unfold GeneratePlayoutMove
    simp only [hc, POLICY.GenerateMove]
    by_cases hp : s.m_policy.moves s.m_policy.nuGenerateMove = SgMove.SG_PASS
    · by_cases hcnt : s.m_passMovesPlayoutPhase < 2 <;> simp [hp, hcnt]
    · simp [hp]
  | true =>
    have hm : s.m_param.m_mercyRule = true := by
      unfold mercyTriggers at hq
      cases h : s.m_param.m_mercyRule
      · rw [h] at hq; simp at hq
      · rfl
    have hch : (CheckMercyRule s).1 = true := by
      unfold mercyTriggers at hq
      rw [hm] at hq
      simpa using hq
    have hpol : (CheckMercyRule s).2.m_policy = s.m_policy := by
      unfold CheckMercyRule
      split_ifs <;> rfl
    unfold GeneratePlayoutMove
    simp [hm, hch, hpol]

/-- C22 (witness): on the 9x9 example whose policy passes, the flag passed as false comes
back true; on the example where the mercy rule ends the game, it comes back false and the
policy has not been asked. -/
theorem GeneratePlayoutMove_skipRaveUpdate_witness :
    (GeneratePlayoutMove passExample false).2.1 = true
    ∧ (GeneratePlayoutMove mercyExample false).2.1 = false
    ∧ (GeneratePlayoutMove mercyExample false).2.2.m_policy.nuGenerateMove = 0 :=
  ⟨(GeneratePlayoutMove_skipRaveUpdate passExample false).1,
   ((GeneratePlayoutMove_skipRaveUpdate mercyExample false).2.2.2 rfl).2.1,
   (GeneratePlayoutMove_skipRaveUpdate mercyExample false).2.1⟩

end GoUctGlobalSearchState

namespace Binary32

/-! ### Rounding to binary32 -/

/-- After dropping `excessBits P P` low bits at most 24 bits remain, exactly 24 when any was
dropped. -/
theorem excessBits_spec : ∀ (fuel P : Nat), P ≤ fuel →
    P / 2 ^ excessBits fuel P < 2 ^ 24
      ∧ (0 < excessBits fuel P → 2 ^ 23 ≤ P / 2 ^ excessBits fuel P)
  | 0, P, h => by
    have : P = 0 := by omega
    subst this
    simp [excessBits]
  | fuel + 1, P, h => by
    unfold excessBits
    by_cases hP : P < 2 ^ 24
    · rw [if_pos hP]
      exact ⟨by simpa using hP, fun h => absurd h (lt_irrefl 0)⟩
    · rw [if_neg hP]
      have hle : P / 2 ≤ fuel := by omega
      obtain ⟨h1, h2⟩ := excessBits_spec fuel (P / 2) hle
      have e : P / 2 ^ (excessBits fuel (P / 2) + 1) = P / 2 / 2 ^ excessBits fuel (P / 2) := by
        rw [pow_succ, mul_comm, Nat.div_div_eq_div_mul]
      rw [e]
      refine ⟨h1, fun _ => ?_⟩
      by_cases h0 : 0 < excessBits fuel (P / 2)
      · exact h2 h0
      · have h0' : excessBits fuel (P / 2) = 0 := by omega
        rw [h0']
        simp only [pow_zero, Nat.div_one]
        omega

/-- The shape of a rounded magnitude: the quantum `2^sh`, the quotient `q` of at most 24 bits
(exactly 24 when the quantum is above the least one) and the remainder `r`. -/
theorem roundMagnitude_cases (A D : Nat) (hD : 0 < D) :
    ∃ sh q r : Nat, A = D * 2 ^ sh * q + r ∧ r < D * 2 ^ sh ∧ q < 2 ^ 24
      ∧ (0 < sh → 2 ^ 23 ≤ q)
      ∧ roundMagnitude A D =
          (if 2 * r > D * 2 ^ sh ∨ (2 * r = D * 2 ^ sh ∧ q % 2 = 1) then (q + 1) * 2 ^ sh
            else q * 2 ^ sh) := by
  obtain ⟨h1, h2⟩ := excessBits_spec (A / D) (A / D) le_rfl
  refine ⟨excessBits (A / D) (A / D), A / (D * 2 ^ excessBits (A / D) (A / D)),
    A % (D * 2 ^ excessBits (A / D) (A / D)), ?_, ?_, ?_, ?_, rfl⟩
  · exact (Nat.div_add_mod A _).symm
  · exact Nat.mod_lt _ (Nat.mul_pos hD (pow_pos (by decide) _))
  · rw [← Nat.div_div_eq_div_mul]
    exact h1
  · intro h0
    rw [← Nat.div_div_eq_div_mul]
    exact h2 h0

/-- Rounding of magnitudes is monotone: a larger quotient `A/D` never rounds to a smaller
number. -/
theorem roundMagnitude_mono (A1 D1 A2 D2 : Nat) (hD1 : 0 < D1) (hD2 : 0 < D2)
    (h : A1 * D2 ≤ A2 * D1) : roundMagnitude A1 D1 ≤ roundMagnitude A2 D2 := by
  obtain ⟨sh1, q1, r1, hA1, hr1, hq1, hn1, hR1⟩ := roundMagnitude_cases A1 D1 hD1
  obtain ⟨sh2, q2, r2, hA2, hr2, hq2, hn2, hR2⟩ := roundMagnitude_cases A2 D2 hD2
  have hlo2 : q2 * 2 ^ sh2 ≤ roundMagnitude A2 D2 := by
    rw [hR2]
    split_ifs
    · exact Nat.mul_le_mul_right _ (Nat.le_succ _)
    · exact le_rfl
  have hhi1 : roundMagnitude A1 D1 ≤ (q1 + 1) * 2 ^ sh1 := by
    rw [hR1]
    split_ifs
    · exact le_rfl
    · exact Nat.mul_le_mul_right _ (Nat.le_succ _)
  have hkey : D1 * 2 ^ sh1 * q1 * D2 < (D2 * 2 ^ sh2 * q2 + D2 * 2 ^ sh2) * D1 := by
    calc D1 * 2 ^ sh1 * q1 * D2 ≤ A1 * D2 := Nat.mul_le_mul_right _ (by omega)
      _ ≤ A2 * D1 := h
      _ < (D2 * 2 ^ sh2 * q2 + D2 * 2 ^ sh2) * D1 := Nat.mul_lt_mul_of_pos_right (by omega) hD1
  have hkey2 : 2 ^ sh1 * q1 < 2 ^ sh2 * q2 + 2 ^ sh2 := by
    have e1 : D1 * 2 ^ sh1 * q1 * D2 = (D1 * D2) * (2 ^ sh1 * q1) := by ring
    have e2 : (D2 * 2 ^ sh2 * q2 + D2 * 2 ^ sh2) * D1 = (D1 * D2) * (2 ^ sh2 * q2 + 2 ^ sh2) := by
      ring
    rw [e1, e2] at hkey
    exact lt_of_mul_lt_mul_left hkey (Nat.zero_le _)
  have hp1 : 0 < 2 ^ sh1 := pow_pos (by decide) _
  have hp2 : 0 < 2 ^ sh2 := pow_pos (by decide) _
  rcases lt_trichotomy sh1 sh2 with hlt | heq | hgt
  · -- a smaller quantum: the first value stays below the binade of the second
    have hpow : 2 * 2 ^ sh1 ≤ 2 ^ sh2 := by
      calc 2 * 2 ^ sh1 = 2 ^ (sh1 + 1) := by ring
        _ ≤ 2 ^ sh2 := Nat.pow_le_pow_right (by decide) hlt
    have hq23 := hn2 (by omega)
    calc roundMagnitude A1 D1 ≤ (q1 + 1) * 2 ^ sh1 := hhi1
      _ ≤ 2 ^ 24 * 2 ^ sh1 := Nat.mul_le_mul_right _ hq1
      _ = 2 ^ 23 * (2 * 2 ^ sh1) := by ring
      _ ≤ 2 ^ 23 * 2 ^ sh2 := Nat.mul_le_mul_left _ hpow
      _ ≤ q2 * 2 ^ sh2 := Nat.mul_le_mul_right _ hq23
      _ ≤ roundMagnitude A2 D2 := hlo2
  · subst heq
    generalize hu : 2 ^ sh1 = u at *
    have hqle : q1 ≤ q2 := by
      by_contra hcon
      have : u * (q2 + 1) ≤ u * q1 := Nat.mul_le_mul_left _ (by omega)
      have e : u * (q2 + 1) = u * q2 + u := by ring
      omega
    rcases Nat.lt_or_ge q1 q2 with hqlt | hqge
    · calc roundMagnitude A1 D1 ≤ (q1 + 1) * u := hhi1
        _ ≤ q2 * u := Nat.mul_le_mul_right _ hqlt
        _ ≤ roundMagnitude A2 D2 := hlo2
    · have hqq : q1 = q2 := le_antisymm hqle hqge
      subst hqq
      -- the same quotient: compare the remainders
      have hrem : r1 * (D2 * u) ≤ r2 * (D1 * u) := by
        have hh : A1 * D2 * u ≤ A2 * D1 * u := Nat.mul_le_mul_right _ h
        rw [hA1, hA2] at hh
        have e1 : (D1 * u * q1 + r1) * D2 * u = D1 * D2 * u * u * q1 + r1 * (D2 * u) := by ring
        have e2 : (D2 * u * q1 + r2) * D1 * u = D1 * D2 * u * u * q1 + r2 * (D1 * u) := by ring
        rw [e1, e2] at hh
        omega
      rw [hR1, hR2]
      have ha1 : 0 < D1 * u := Nat.mul_pos hD1 hp1
      have ha2 : 0 < D2 * u := Nat.mul_pos hD2 hp1
      generalize D1 * u = a1 at *
      generalize D2 * u = a2 at *
      by_cases hc1 : 2 * r1 > a1 ∨ (2 * r1 = a1 ∧ q1 % 2 = 1)
      · have hc2 : 2 * r2 > a2 ∨ (2 * r2 = a2 ∧ q1 % 2 = 1) := by
          have hge : a2 ≤ 2 * r2 := by
            by_contra hcon
            have h3 : 2 * r2 < a2 := by omega
            have h4 : 2 * r2 * a1 < a2 * a1 := Nat.mul_lt_mul_of_pos_right h3 ha1
            have h5 : a1 * a2 ≤ 2 * r1 * a2 := Nat.mul_le_mul_right _ (by omega)
            have e3 : 2 * r2 * a1 = 2 * (r2 * a1) := by ring
            have e4 : 2 * r1 * a2 = 2 * (r1 * a2) := by ring
            have e5 : a2 * a1 = a1 * a2 := by ring
            rw [e3, e5] at h4
            rw [e4] at h5
            omega
          rcases hc1 with hgt | ⟨heq, hodd⟩
          · left
            by_contra hcon
            have h3 : 2 * r2 = a2 := by omega
            have h5 : a1 * a2 < 2 * r1 * a2 := Nat.mul_lt_mul_of_pos_right hgt ha2
            have e4 : 2 * r1 * a2 = 2 * (r1 * a2) := by ring
            have e6 : a1 * a2 = 2 * (r2 * a1) := by rw [← h3]; ring
            rw [e4, e6] at h5
            omega
          · rcases Nat.lt_or_ge a2 (2 * r2) with h6 | h6
            · exact Or.inl h6
            · exact Or.inr ⟨by omega, hodd⟩
        rw [if_pos hc1, if_pos hc2]
      · rw [if_neg hc1]
        split_ifs
        · exact Nat.mul_le_mul_right _ (Nat.le_succ _)
        · exact le_rfl
  · -- a larger quantum contradicts the order of the quotients
    exfalso
    have hpow : 2 * 2 ^ sh2 ≤ 2 ^ sh1 := by
      calc 2 * 2 ^ sh2 = 2 ^ (sh2 + 1) := by ring
        _ ≤ 2 ^ sh1 := Nat.pow_le_pow_right (by decide) hgt
    have hq23 := hn1 (by omega)
    have h1 : 2 ^ sh2 * q2 + 2 ^ sh2 ≤ 2 ^ sh2 * 2 ^ 24 := by
      have : 2 ^ sh2 * q2 + 2 ^ sh2 = 2 ^ sh2 * (q2 + 1) := by ring
      rw [this]
      exact Nat.mul_le_mul_left _ hq2
    have h2 : 2 ^ sh2 * 2 ^ 24 ≤ 2 ^ sh1 * q1 := by
      calc 2 ^ sh2 * 2 ^ 24 = (2 * 2 ^ sh2) * 2 ^ 23 := by ring
        _ ≤ 2 ^ sh1 * 2 ^ 23 := Nat.mul_le_mul_right _ hpow
        _ ≤ 2 ^ sh1 * q1 := Nat.mul_le_mul_left _ hq23
    omega

/-- Zero rounds to zero. -/
theorem roundMagnitude_zero (D : Nat) : roundMagnitude 0 D = 0 := by
  simp [roundMagnitude, excessBits]

/-- The rounding of a non-negative quotient. -/
theorem round_of_natCast (A D : Nat) :
    round (A : Int) D
      = if 2 ^ 128 * 2 ^ 149 ≤ roundMagnitude A D then inf false else finite (roundMagnitude A D : Int) := by
  unfold round
  rcases Nat.eq_zero_or_pos A with h0 | hpos
  · subst h0
    simp [roundMagnitude_zero]
  · have hs : Int.sign (A : Int) = 1 := Int.sign_eq_one_of_pos (by exact_mod_cast hpos)
    have hn : ¬ ((A : Int) < 0) := by omega
    simp [hs, hn]

/-- Rounding commutes with negation. -/
theorem round_of_neg (A : Int) (D : Nat) : round (-A) D = neg (round A D) := by
  unfold round
  rw [Int.natAbs_neg]
  by_cases h : 2 ^ 128 * 2 ^ 149 ≤ roundMagnitude A.natAbs D
  · have hA : A ≠ 0 := by
      intro h0
      subst h0
      simp [roundMagnitude_zero] at h
    simp only [h, if_true, neg]
    congr 1
    rcases lt_or_gt_of_ne hA with h1 | h1
    · simp [h1]
      omega
    · simp [h1]
      omega
  · simp only [h, if_false, neg, Int.sign_neg, neg_mul]

/-- The comparison `<=` is reflexive on the values that are not NaN. -/
theorem le_self (x : Binary32) (hx : x ≠ nan) : le x x = true := by
  cases x with
  | finite n => simp [le]
  | inf b => cases b <;> simp [le]
  | nan => exact absurd rfl hx

/-- Negation reverses the order. -/
theorem neg_antitone (x y : Binary32) (h : le x y = true) : le (neg y) (neg x) = true := by
  cases x <;> cases y <;> simp_all [le, neg]
  rcases h with h | h <;> simp [h]

/-- Rounding is monotone: a larger exact quotient never rounds to a smaller value. -/
theorem round_monotone (A1 A2 : Int) (D1 D2 : Nat) (hD1 : 0 < D1) (hD2 : 0 < D2)
    (h : A1 * D2 ≤ A2 * D1) : le (round A1 D1) (round A2 D2) = true := by
  have nonneg : ∀ (a1 a2 D1 D2 : Nat), 0 < D1 → 0 < D2 → a1 * D2 ≤ a2 * D1 →
      le (round (a1 : Int) D1) (round (a2 : Int) D2) = true := by
    intro a1 a2 D1 D2 hD1 hD2 ha
    have hm := roundMagnitude_mono a1 D1 a2 D2 hD1 hD2 ha
    rw [round_of_natCast, round_of_natCast]
    split_ifs with c1 c2 c2
    · rfl
    · omega
    · rfl
    · simp only [le, decide_eq_true_eq]
      exact_mod_cast hm
  have hD1' : (0 : Int) < D1 := by exact_mod_cast hD1
  have hD2' : (0 : Int) < D2 := by exact_mod_cast hD2
  rcases le_or_lt 0 A1 with h1 | h1
  · have h2 : 0 ≤ A2 := by
      by_contra hcon
      have : A2 * D1 < 0 := Int.mul_neg_of_neg_of_pos (by omega) hD1'
      have : 0 ≤ A1 * D2 := Int.mul_nonneg h1 (le_of_lt hD2')
      omega
    obtain ⟨a1, rfl⟩ := Int.eq_ofNat_of_zero_le h1
    obtain ⟨a2, rfl⟩ := Int.eq_ofNat_of_zero_le h2
    exact nonneg a1 a2 D1 D2 hD1 hD2 (by exact_mod_cast h)
  · obtain ⟨a1, ha1⟩ : ∃ a1 : Nat, A1 = -(a1 : Int) := ⟨A1.natAbs, by omega⟩
    subst ha1
    rw [round_of_neg]
    rcases le_or_lt 0 A2 with h2 | h2
    · obtain ⟨a2, rfl⟩ := Int.eq_ofNat_of_zero_le h2
      rw [round_of_natCast, round_of_natCast]
      split_ifs <;> simp [le, neg]
      have : (0 : Int) ≤ (roundMagnitude a1 D1 : Int) := Int.ofNat_nonneg _
      have : (0 : Int) ≤ (roundMagnitude a2 D2 : Int) := Int.ofNat_nonneg _
      omega
    · obtain ⟨a2, ha2⟩ : ∃ a2 : Nat, A2 = -(a2 : Int) := ⟨A2.natAbs, by omega⟩
      subst ha2
      rw [round_of_neg]
      apply neg_antitone
      apply nonneg a2 a1 D2 D1 hD2 hD1
      have : -(a1 : Int) * D2 ≤ -(a2 : Int) * D1 := h
      have e : (a2 : Int) * D1 ≤ (a1 : Int) * D2 := by linarith
      exact_mod_cast e

/-- The `int` 0 converts to the number 0. -/
theorem ofInt_zero : ofInt 0 = finite 0 := by decide!

/-- The `int` 1 converts to `2^149` units. -/
theorem ofInt_one : ofInt 1 = finite (2 ^ 149) := by decide!

/-- The `int` -1 converts to `-2^149` units. -/
theorem ofInt_neg_one : ofInt (-1) = finite (-2 ^ 149) := by decide!

/-- Zero rounds to zero, whatever the denominator. -/
theorem round_of_zero (D : Nat) : round 0 D = finite 0 := by
  simp [round, roundMagnitude_zero]

/-- The number 1 is a binary32 number. -/
theorem round_of_one : round (2 ^ 149) 1 = finite (2 ^ 149) := by decide!

/-- A value between two finite values is finite. -/
theorem finite_of_le_of_le (x : Binary32) (a b : Int) (h1 : le (finite a) x = true)
    (h2 : le x (finite b) = true) : ∃ c : Int, x = finite c ∧ a ≤ c ∧ c ≤ b := by
  cases x with
  | nan => simp [le] at h1
  | finite c =>
    simp only [le, decide_eq_true_eq] at h1 h2
    exact ⟨c, rfl, h1, h2⟩
  | inf s => cases s <;> simp [le] at h1 h2


/-- Rounding depends on the quotient only: a common factor cancels. -/
theorem roundMagnitude_scale (A D : Nat) (hD : 0 < D) :
    roundMagnitude (A * D) D = roundMagnitude A 1 := by
  unfold roundMagnitude
  rw [Nat.mul_div_cancel A hD, Nat.div_one]
  dsimp only
  generalize excessBits A A = sh
  rw [Nat.mul_comm A D, Nat.mul_div_mul_left A (2 ^ sh) hD, Nat.mul_mod_mul_left, Nat.one_mul]
  have hu : 0 < 2 ^ sh := pow_pos (by decide) _
  generalize 2 ^ sh = u at *
  generalize A % u = r
  have e1 : (2 * (D * r) > D * u) ↔ (2 * r > u) := by
    constructor
    · intro h
      have : D * u < D * (2 * r) := by linarith
      exact lt_of_mul_lt_mul_left this (Nat.zero_le _)
    · intro h
      have : D * u < D * (2 * r) := Nat.mul_lt_mul_of_pos_left h hD
      linarith
  have e2 : (2 * (D * r) = D * u) ↔ (2 * r = u) := by
    constructor
    · intro h
      have : D * (2 * r) = D * u := by linarith
      exact Nat.eq_of_mul_eq_mul_left hD this
    · intro h
      rw [← h]
      ring
  simp only [e1, e2]

/-- Rounding in sign and magnitude depends on the quotient only. -/
theorem round_scale (A : Int) (D : Nat) (hD : 0 < D) : round (A * D) D = round A 1 := by
  have hD' : (0 : Int) < D := by exact_mod_cast hD
  unfold round
  have e1 : (A * D).natAbs = A.natAbs * D := by
    rw [Int.natAbs_mul, Int.natAbs_ofNat]
  have e2 : Int.sign (A * D) = Int.sign A := by
    rw [Int.sign_mul, Int.sign_eq_one_of_pos hD', mul_one]
  have e3 : (A * D < 0) ↔ (A < 0) := by
    constructor
    · intro h
      by_contra hcon
      have : 0 ≤ A * D := Int.mul_nonneg (by omega) (le_of_lt hD')
      omega
    · intro h
      exact Int.mul_neg_of_neg_of_pos h hD'
  rw [e1, e2, roundMagnitude_scale _ _ hD]
  simp only [e3]

/-- Changing the sign of a binary32 number (`score *= -1`) is exact. -/
theorem mul_minus_one (x : Int) (hx : round x 1 = finite x) :
    mul (finite x) (finite (-2 ^ 149)) = finite (-x) := by
  have e : mul (finite x) (finite (-2 ^ 149)) = round (x * (-2 ^ 149)) (2 ^ 149) := rfl
  have e2 : x * (-2 ^ 149) = -(x * ((2 ^ 149 : Nat) : Int)) := by
    push_cast
    ring
  rw [e, e2, round_of_neg, round_scale _ _ (by positivity), hx]
  rfl

/-- Multiplication by a finite number commutes with negation of the other factor. -/
theorem mul_neg_comm_right (a : Int) (y : Binary32) :
    mul (finite a) (neg y) = neg (mul (finite a) y) := by
  cases y with
  | nan => rfl
  | finite b =>
    show round (a * -b) (2 ^ 149) = neg (round (a * b) (2 ^ 149))
    rw [← round_of_neg]
    congr 1
    ring
  | inf b =>
    simp only [mul, neg]
    split_ifs
    · rfl
    · simp [neg]

/-- Multiplication commutes with negation of the left factor. -/
theorem mul_neg_comm_left (x : Binary32) (b : Int) :
    mul (neg x) (finite b) = neg (mul x (finite b)) := by
  cases x with
  | nan => rfl
  | finite a =>
    show round (-a * b) (2 ^ 149) = neg (round (a * b) (2 ^ 149))
    rw [← round_of_neg]
    congr 1
    ring
  | inf a =>
    simp only [mul, neg]
    split_ifs
    · rfl
    · simp [neg]

/-- The absolute rounding error of a whole number of units below `2^(24+j)` is at most half
of `2^j`. -/
theorem roundMagnitude_abs_error (A j : Nat) (hA : A ≤ 2 ^ 24 * 2 ^ j) :
    2 * roundMagnitude A 1 ≤ 2 * A + 2 ^ j ∧ 2 * A ≤ 2 * roundMagnitude A 1 + 2 ^ j := by
  obtain ⟨sh, q, r, hAe, hr, hq, hn, hR⟩ := roundMagnitude_cases A 1 (by decide)
  simp only [one_mul] at hAe hr hR
  have hu : 0 < 2 ^ sh := pow_pos (by decide) _
  have hj : 0 < 2 ^ j := pow_pos (by decide) _
  rcases Nat.lt_or_ge j sh with hlt | hge
  · -- the quantum is above `2^j` only when the number is the power of two itself
    have hpow : 2 * 2 ^ j ≤ 2 ^ sh := by
      calc 2 * 2 ^ j = 2 ^ (j + 1) := by ring
        _ ≤ 2 ^ sh := Nat.pow_le_pow_right (by decide) hlt
    have hq23 := hn (by omega)
    have h1 : 2 ^ sh * 2 ^ 23 ≤ 2 ^ sh * q := Nat.mul_le_mul_left _ hq23
    have h2 : 2 * 2 ^ j * 2 ^ 23 ≤ 2 ^ sh * 2 ^ 23 := Nat.mul_le_mul_right _ hpow
    have e : 2 * 2 ^ j * 2 ^ 23 = 2 ^ 24 * 2 ^ j := by ring
    have hr0 : r = 0 := by omega
    subst hr0
    have hc : ¬ (2 * 0 > 2 ^ sh ∨ (2 * 0 = 2 ^ sh ∧ q % 2 = 1)) := by omega
    rw [hR, if_neg hc]
    have e2 : q * 2 ^ sh = 2 ^ sh * q := Nat.mul_comm _ _
    omega
  · have hpow : 2 ^ sh ≤ 2 ^ j := Nat.pow_le_pow_right (by decide) hge
    rw [hR]
    have e1 : (q + 1) * 2 ^ sh = 2 ^ sh * q + 2 ^ sh := by ring
    have e2 : q * 2 ^ sh = 2 ^ sh * q := Nat.mul_comm _ _
    generalize 2 ^ sh = u at *
    generalize 2 ^ j = w at *
    generalize u * q = uq at *
    split_ifs with hc
    · rw [e1]
      rcases hc with hc | ⟨hc, -⟩ <;> omega
    · rw [e2]
      have : 2 * r ≤ u := by
        by_contra hcon
        exact hc (Or.inl (by omega))
      omega

/-- The sum or difference of binary32 numbers below `2^(24+j)` units in magnitude rounds to
a finite number at most half of `2^j` units away. -/
theorem round_abs_error (A : Int) (j : Nat) (hA : A.natAbs ≤ 2 ^ 24 * 2 ^ j)
    (hov : 2 ^ 24 * 2 ^ j + 2 ^ j < 2 ^ 128 * 2 ^ 149) :
    ∃ R : Int, round A 1 = finite R ∧ 2 * R ≤ 2 * A + 2 ^ j ∧ 2 * A ≤ 2 * R + 2 ^ j := by
  have nonneg : ∀ a : Nat, a ≤ 2 ^ 24 * 2 ^ j →
      ∃ R : Nat, round (a : Int) 1 = finite (R : Int) ∧ 2 * R ≤ 2 * a + 2 ^ j
        ∧ 2 * a ≤ 2 * R + 2 ^ j := by
    intro a ha
    obtain ⟨h1, h2⟩ := roundMagnitude_abs_error a j ha
    refine ⟨roundMagnitude a 1, ?_, h1, h2⟩
    rw [round_of_natCast, if_neg (by omega)]
  rcases le_or_lt 0 A with h0 | h0
  · obtain ⟨a, rfl⟩ := Int.eq_ofNat_of_zero_le h0
    obtain ⟨R, hR, h1, h2⟩ := nonneg a (by simpa using hA)
    refine ⟨R, hR, ?_, ?_⟩
    · exact_mod_cast h1
    · exact_mod_cast h2
  · obtain ⟨a, ha⟩ : ∃ a : Nat, A = -(a : Int) := ⟨A.natAbs, by omega⟩
    subst ha
    obtain ⟨R, hR, h1, h2⟩ := nonneg a (by simpa using hA)
    refine ⟨-(R : Int), ?_, ?_, ?_⟩
    · rw [round_of_neg, hR]
      rfl
    · have : (2 * a : Int) ≤ 2 * R + 2 ^ j := by exact_mod_cast h2
      linarith
    · have : (2 * R : Int) ≤ 2 * a + 2 ^ j := by exact_mod_cast h1
      linarith

/-- Zero times a finite number is zero. -/
theorem zero_mul_finite (y : Int) : mul (finite 0) (finite y) = finite 0 := by
  show round (0 * y) (2 ^ 149) = finite 0
  rw [zero_mul, round_of_zero]

/-- A finite number times zero is zero. -/
theorem mul_finite_zero (y : Int) : mul (finite y) (finite 0) = finite 0 := by
  show round (y * 0) (2 ^ 149) = finite 0
  rw [mul_zero, round_of_zero]

/-- Adding zero to a binary32 number is exact. -/
theorem add_finite_zero (a : Int) (ha : round a 1 = finite a) :
    add (finite a) (finite 0) = finite a := by
  show round (a + 0) 1 = finite a
  rw [add_zero, ha]

/-- The difference of two finite numbers is the rounded exact difference. -/
theorem sub_finite (a b : Int) : sub (finite a) (finite b) = round (a + -b) 1 := rfl

/-- The sum of two finite numbers is the rounded exact sum. -/
theorem add_finite (a b : Int) : add (finite a) (finite b) = round (a + b) 1 := rfl

/-- The product of two finite numbers is the rounded exact product. -/
theorem mul_finite (a b : Int) : mul (finite a) (finite b) = round (a * b) (2 ^ 149) := rfl

/-- A non-negative quotient rounds to a non-negative value. -/
theorem round_of_nonneg (A : Int) (D : Nat) (hD : 0 < D) (hA : 0 ≤ A) :
    le (finite 0) (round A D) = true := by
  rw [← round_of_zero D]
  refine round_monotone _ _ _ _ hD hD ?_
  rw [zero_mul]
  exact Int.mul_nonneg hA (Int.ofNat_nonneg _)

end Binary32

namespace GoUctGlobalSearchState

open Binary32

/-! ### The value of `Evaluate` in binary32

Numbers are in units of `2^-149`: the numerator `2^149` is 1, `2^148` is 1/2, and
`round x 1 = finite x` says that `x` units is a binary32 number. -/

/-- The value of `EvaluateBoardFloat` with Black to play: the score is used as it is. -/
theorem EvaluateBoardFloat_black (k inv score : Binary32) :
    EvaluateBoardFloat k inv SgBlackWhite.SG_BLACK score
      = if gt score (finite 0) then add (sub (finite (2 ^ 149)) k) (mul (mul k score) inv)
        else add k (mul (mul k score) inv) := by
  have e : ∀ a b : Binary32,
      (if SgBlackWhite.SG_BLACK ≠ SgBlackWhite.SG_BLACK then a else b) = b :=
    fun a b => if_neg (by decide)
  unfold EvaluateBoardFloat
  simp only [e, ofInt_zero, ofInt_one]

/-- The value of `EvaluateBoardFloat` with White to play is the value that Black to play gets
for the score multiplied by -1. -/
theorem EvaluateBoardFloat_white (k inv score : Binary32) :
    EvaluateBoardFloat k inv SgBlackWhite.SG_WHITE score
      = EvaluateBoardFloat k inv SgBlackWhite.SG_BLACK (mul score (finite (-2 ^ 149))) := by
  have e : ∀ a b : Binary32,
      (if SgBlackWhite.SG_WHITE ≠ SgBlackWhite.SG_BLACK then a else b) = a :=
    fun a b => if_pos (by decide)
  rw [EvaluateBoardFloat_black]
  unfold EvaluateBoardFloat
  simp only [e, ofInt_zero, ofInt_one, ofInt_neg_one]

/-- The base `1 - k` of a win is a finite number between any binary32 number `lo ≤ 1 - k`
and 1, for `0 ≤ k ≤ 1`. -/
theorem sub_one_bounds (k : Int) (hk0 : 0 ≤ k) (hk1 : k ≤ 2 ^ 149) (lo : Int)
    (hlo : round lo 1 = finite lo) (hlo1 : lo ≤ 2 ^ 149 - k) :
    ∃ c : Int, sub (finite (2 ^ 149)) (finite k) = finite c ∧ lo ≤ c ∧ c ≤ 2 ^ 149 := by
  rw [sub_finite]
  apply finite_of_le_of_le
  · rw [← hlo]
    exact round_monotone _ _ 1 1 (by decide) (by decide) (by omega)
  · rw [← round_of_one]
    exact round_monotone _ _ 1 1 (by decide) (by decide) (by omega)

/-- The value given to a score that the side to move sees as positive. -/
theorem EvaluateBoardFloat_of_pos (k inv : Binary32) (y : Int) (hy : 0 < y) :
    EvaluateBoardFloat k inv SgBlackWhite.SG_BLACK (finite y)
      = add (sub (finite (2 ^ 149)) k) (mul (mul k (finite y)) inv) := by
  rw [EvaluateBoardFloat_black]
  have : gt (finite y) (finite 0) = true := by simpa [gt] using hy
  rw [this]
  rfl

/-- The value given to a score that the side to move sees as non-positive. -/
theorem EvaluateBoardFloat_of_nonpos (k inv : Binary32) (y : Int) (hy : y ≤ 0) :
    EvaluateBoardFloat k inv SgBlackWhite.SG_BLACK (finite y)
      = add k (mul (mul k (finite y)) inv) := by
  rw [EvaluateBoardFloat_black]
  have : gt (finite y) (finite 0) = false := by simpa [gt] using hy
  rw [this]
  rfl

/-- The value in terms of the score seen from the side to move, for a score that is a
binary32 number: `score *= -1` is exact. -/
theorem EvaluateBoardFloat_perspective (k inv : Binary32) (toPlay : SgBlackWhite) (x : Int)
    (hx : round x 1 = finite x) :
    EvaluateBoardFloat k inv toPlay (finite x)
      = EvaluateBoardFloat k inv SgBlackWhite.SG_BLACK
          (finite (if toPlay = SgBlackWhite.SG_BLACK then x else -x)) := by
  cases toPlay with
  | SG_BLACK => rw [if_pos rfl]
  | SG_WHITE => rw [if_neg (by decide), EvaluateBoardFloat_white, mul_minus_one x hx]

/-- The value at the 9x9 position with komi -5.5 and score 86.5 (score modification 0.02,
Black to play) is above 1 in binary32 as well: about 1.0029. -/
theorem EvaluateBoardFloat_above_one_negative_komi :
    gt (EvaluateBoardFloat (ofRat (1 / 50)) (StartSearchFloat 9 (ofRat (-11 / 2)))
        SgBlackWhite.SG_BLACK (ofRat (173 / 2))) (ofInt 1) = true := by
  decide!

/-- The default score modification 0.02 as a binary32 number, and the `m_invMaxScore` that
`StartSearch` stores on a 9x9 board with komi 0, in units of `2^-149`. -/
theorem default_modification_and_invMaxScore :
    ofRat (1 / 50) = finite 14272476608044879822203050197581256896544768
    ∧ StartSearchFloat 9 (ofRat 0) = finite 8810171008270270662577857732592293942132736 := by
  decide!

/-- C6 (counterexample): on a 9x9 board with komi -81 the maximal score is 0 and `StartSearch`
stores `1/0`, the positive infinity; with score modification 0 the product `0 * score` times
that infinity is a NaN, and `Evaluate` returns a NaN for the score 1 and for the score -1,
neither 1 nor 0. -/
theorem zero_modification_nan_at_infinite_invMaxScore :
    StartSearchFloat 9 (ofRat (-81)) = inf false
    ∧ EvaluateBoardFloat (ofInt 0) (StartSearchFloat 9 (ofRat (-81))) SgBlackWhite.SG_BLACK
        (ofInt 1) = nan
    ∧ EvaluateBoardFloat (ofInt 0) (StartSearchFloat 9 (ofRat (-81))) SgBlackWhite.SG_BLACK
        (ofInt (-1)) = nan := by
  decide!

/-- C6 (amended): with score modification 0 (mercy rule not triggered), for every finite
`m_invMaxScore` and every score that is a binary32 number, `Evaluate` returns exactly 1 when
the score seen from the side to move is positive and exactly 0 when it is not. -/
theorem EvaluateBoardFloat_zero_modification (inv x : Int) (toPlay : SgBlackWhite)
    (hx : round x 1 = finite x) :
    EvaluateBoardFloat (ofInt 0) (finite inv) toPlay (finite x)
      = if 0 < (if toPlay = SgBlackWhite.SG_BLACK then x else -x) then ofInt 1 else ofInt 0 := by
  rw [EvaluateBoardFloat_perspective _ _ _ _ hx, ofInt_zero, ofInt_one]
  generalize (if toPlay = SgBlackWhite.SG_BLACK then x else -x) = y
  by_cases hy : 0 < y
  · rw [if_pos hy, EvaluateBoardFloat_of_pos _ _ _ hy, zero_mul_finite, zero_mul_finite]
    have : sub (finite (2 ^ 149)) (finite 0) = finite (2 ^ 149) := by
      rw [sub_finite, neg_zero, add_zero, round_of_one]
    rw [this, add_finite_zero _ round_of_one]
  · rw [if_neg hy, EvaluateBoardFloat_of_nonpos _ _ _ (by omega), zero_mul_finite,
      zero_mul_finite]
    exact add_finite_zero 0 (round_of_zero 1)

/-- C6 (witness): with score modification 0 and the `m_invMaxScore` of a 9x9 board with komi
0, the score 1 with White to play, which White sees as -1, gets the value selected by the
sign test. -/
theorem EvaluateBoardFloat_zero_modification_witness :
    EvaluateBoardFloat (ofInt 0) (finite 8810171008270270662577857732592293942132736)
        SgBlackWhite.SG_WHITE (finite (2 ^ 149))
      = if 0 < (if SgBlackWhite.SG_WHITE = SgBlackWhite.SG_BLACK then (2 ^ 149 : Int)
          else -(2 ^ 149)) then ofInt 1 else ofInt 0 :=
  EvaluateBoardFloat_zero_modification 8810171008270270662577857732592293942132736 (2 ^ 149)
    SgBlackWhite.SG_WHITE round_of_one

/-- C23 (counterexample): on an 8x8 board with komi 0 (`m_invMaxScore = 1/64`) and score
modification 0.1, the score 1 gets 0.90156245 from Black to play and the same position gets
0.0984375 from White to play, as does the score -1 from Black; the two values add up to
less than 1, and their binary32 sum is not 1 either. -/
theorem EvaluateBoardFloat_sum_below_one :
    ofRat (1 / 10) = finite 71362385698680390680846996795520405043412992
    ∧ EvaluateBoardFloat (ofRat (1 / 10)) (StartSearchFloat 8 (ofRat 0)) SgBlackWhite.SG_BLACK
        (ofInt 1) = finite 643376464949371785539459125828444486270713856
    ∧ EvaluateBoardFloat (ofRat (1 / 10)) (StartSearchFloat 8 (ofRat 0)) SgBlackWhite.SG_BLACK
        (ofInt (-1)) = finite 70247349502136256151702909204933635192389632
    ∧ EvaluateBoardFloat (ofRat (1 / 10)) (StartSearchFloat 8 (ofRat 0)) SgBlackWhite.SG_WHITE
        (ofInt 1) = finite 70247349502136256151702909204933635192389632
    ∧ (643376464949371785539459125828444486270713856
        + 70247349502136256151702909204933635192389632 : Int) < 2 ^ 149
    ∧ add (finite 643376464949371785539459125828444486270713856)
        (finite 70247349502136256151702909204933635192389632) ≠ ofInt 1 := by
  decide!

/-- C23 (amended): for a score modification `k` in [0,1] and a score `x`, both binary32
numbers, a finite `m_invMaxScore ≥ 0`, and a score seen as positive by the side to move whose
modification `t = k * score * m_invMaxScore` (each product rounded) is at most 1: the value
of the score is `(1 - k) + t` and the value of the opposite score is `k - t` with the same
`t`, each difference and sum rounded; both are finite and they add up to 1 within `2^-23`
(`2^126` units).  The value of the opposite score is the value that the opponent to play gets
for the same score.  At the score 0 the value is exactly `k`, for either side. -/
theorem EvaluateBoardFloat_complementary (k inv x : Int) (toPlay : SgBlackWhite)
    (hk0 : 0 ≤ k) (hk1 : k ≤ 2 ^ 149) (hk : round k 1 = finite k)
    (hx : round x 1 = finite x) (hi : 0 ≤ inv)
    (hpos : 0 < (if toPlay = SgBlackWhite.SG_BLACK then x else -x))
    (hmod : le (mul (mul (finite k)
        (finite (if toPlay = SgBlackWhite.SG_BLACK then x else -x))) (finite inv))
      (ofInt 1) = true) :
    (∃ t v1 v2 : Int,
      mul (mul (finite k) (finite (if toPlay = SgBlackWhite.SG_BLACK then x else -x)))
          (finite inv) = finite t
      ∧ EvaluateBoardFloat (finite k) (finite inv) toPlay (finite x)
          = add (sub (ofInt 1) (finite k)) (finite t)
      ∧ EvaluateBoardFloat (finite k) (finite inv) toPlay (finite (-x))
          = add (finite k) (finite (-t))
      ∧ EvaluateBoardFloat (finite k) (finite inv) toPlay (finite x) = finite v1
      ∧ EvaluateBoardFloat (finite k) (finite inv) toPlay (finite (-x)) = finite v2
      ∧ |v1 + v2 - 2 ^ 149| ≤ 2 ^ 126)
    ∧ (∀ opp : SgBlackWhite, opp ≠ toPlay →
        EvaluateBoardFloat (finite k) (finite inv) opp (finite x)
          = EvaluateBoardFloat (finite k) (finite inv) toPlay (finite (-x)))
    ∧ EvaluateBoardFloat (finite k) (finite inv) toPlay (finite 0) = finite k := by
  have hnx : round (-x) 1 = finite (-x) := by rw [round_of_neg, hx]; rfl
  have hopp : ∀ opp : SgBlackWhite, opp ≠ toPlay →
      EvaluateBoardFloat (finite k) (finite inv) opp (finite x)
        = EvaluateBoardFloat (finite k) (finite inv) toPlay (finite (-x)) := by
    intro opp ho
    rw [EvaluateBoardFloat_perspective _ _ opp _ hx,
      EvaluateBoardFloat_perspective _ _ toPlay _ hnx]
    cases opp <;> cases toPlay
    · exact absurd rfl ho
    · rw [if_pos rfl, if_neg (by decide), neg_neg]
    · rw [if_neg (by decide), if_pos rfl]
    · exact absurd rfl ho
  have main : (∃ t v1 v2 : Int,
      mul (mul (finite k) (finite (if toPlay = SgBlackWhite.SG_BLACK then x else -x)))
          (finite inv) = finite t
      ∧ EvaluateBoardFloat (finite k) (finite inv) toPlay (finite x)
          = add (sub (ofInt 1) (finite k)) (finite t)
      ∧ EvaluateBoardFloat (finite k) (finite inv) toPlay (finite (-x))
          = add (finite k) (finite (-t))
      ∧ EvaluateBoardFloat (finite k) (finite inv) toPlay (finite x) = finite v1
      ∧ EvaluateBoardFloat (finite k) (finite inv) toPlay (finite (-x)) = finite v2
      ∧ |v1 + v2 - 2 ^ 149| ≤ 2 ^ 126)
    ∧ EvaluateBoardFloat (finite k) (finite inv) toPlay (finite 0) = finite k := by
    clear hopp
    have hpersp : (if toPlay = SgBlackWhite.SG_BLACK then -x else - -x)
        = -(if toPlay = SgBlackWhite.SG_BLACK then x else -x) := by
      split_ifs <;> rfl
    rw [EvaluateBoardFloat_perspective _ _ _ _ hx, EvaluateBoardFloat_perspective _ _ _ _ hnx,
      EvaluateBoardFloat_perspective _ _ _ _ (round_of_zero 1), hpersp, ofInt_one] at *
    have hz : (if toPlay = SgBlackWhite.SG_BLACK then (0 : Int) else -0) = 0 := by
      split_ifs <;> rfl
    rw [hz]
    generalize (if toPlay = SgBlackWhite.SG_BLACK then x else -x) = y at *
    constructor
    · have hlow : le (finite 0) (mul (mul (finite k) (finite y)) (finite inv)) = true := by
        have h1 : le (finite 0) (mul (finite k) (finite y)) = true :=
          round_of_nonneg _ _ (by positivity) (Int.mul_nonneg hk0 (le_of_lt hpos))
        generalize mul (finite k) (finite y) = w at h1 hmod ⊢
        cases w with
        | nan => simp [le] at h1
        | finite n =>
          simp only [le, decide_eq_true_eq] at h1
          exact round_of_nonneg _ _ (by positivity) (Int.mul_nonneg h1 hi)
        | inf b =>
          cases b with
          | true => simp [le] at h1
          | false =>
            exfalso
            revert hmod
            simp only [mul]
            split_ifs
            · simp [le]
            · simp [le]
              exact hi
      obtain ⟨t, ht, ht0, ht1⟩ := finite_of_le_of_le _ 0 (2 ^ 149) hlow hmod
      obtain ⟨c, hc, hc0, hc1⟩ := sub_one_bounds k hk0 hk1 0 (round_of_zero 1) (by omega)
      have e1 : EvaluateBoardFloat (finite k) (finite inv) SgBlackWhite.SG_BLACK (finite y)
          = add (sub (finite (2 ^ 149)) (finite k)) (finite t) := by
        rw [EvaluateBoardFloat_of_pos _ _ _ hpos, ht]
      have e2 : EvaluateBoardFloat (finite k) (finite inv) SgBlackWhite.SG_BLACK (finite (-y))
          = add (finite k) (finite (-t)) := by
        rw [EvaluateBoardFloat_of_nonpos _ _ _ (by omega)]
        have : finite (-y) = neg (finite y) := rfl
        rw [this, mul_neg_comm_right, mul_neg_comm_left, ht]
        rfl
      -- the three roundings: of `1 - k`, of the win value and of the loss value
      obtain ⟨hc2, hc3⟩ :
          2 * c ≤ 2 * (2 ^ 149 - k) + 2 ^ 125 ∧ 2 * (2 ^ 149 - k) ≤ 2 * c + 2 ^ 125 := by
        obtain ⟨R, hR, h1, h2⟩ := round_abs_error (2 ^ 149 + -k) 125 (by omega) (by norm_num)
        rw [sub_finite, hR] at hc
        injection hc with hc
        subst hc
        constructor <;> omega
      obtain ⟨v1, hv1, h11, h12⟩ := round_abs_error (c + t) 126 (by omega) (by norm_num)
      obtain ⟨v2, hv2, h21, h22⟩ := round_abs_error (k + -t) 125 (by omega) (by norm_num)
      refine ⟨t, v1, v2, ht, e1, e2, ?_, ?_, ?_⟩
      · rw [e1, hc]
        exact hv1
      · rw [e2]
        exact hv2
      · rw [abs_le]
        constructor <;> omega
    · rw [EvaluateBoardFloat_of_nonpos _ _ _ le_rfl, mul_finite_zero, zero_mul_finite]
      exact add_finite_zero k hk
  exact ⟨main.1, hopp, main.2⟩

/-- C23 (witness): with the default score modification 0.02 and the `m_invMaxScore` of a 9x9
board with komi 0, Black to play: the values of the scores 1 and -1 are finite and add up to
1 within `2^-23`, and the score 0 gets exactly the binary32 number 0.02. -/
theorem EvaluateBoardFloat_complementary_witness :
    (∃ t v1 v2 : Int,
      mul (mul (finite 14272476608044879822203050197581256896544768)
          (finite (if SgBlackWhite.SG_BLACK = SgBlackWhite.SG_BLACK then 2 ^ 149
            else -2 ^ 149)))
          (finite 8810171008270270662577857732592293942132736) = finite t
      ∧ EvaluateBoardFloat (finite 14272476608044879822203050197581256896544768)
          (finite 8810171008270270662577857732592293942132736) SgBlackWhite.SG_BLACK
          (finite (2 ^ 149))
          = add (sub (ofInt 1) (finite 14272476608044879822203050197581256896544768))
            (finite t)
      ∧ EvaluateBoardFloat (finite 14272476608044879822203050197581256896544768)
          (finite 8810171008270270662577857732592293942132736) SgBlackWhite.SG_BLACK
          (finite (-2 ^ 149))
          = add (finite 14272476608044879822203050197581256896544768) (finite (-t))
      ∧ EvaluateBoardFloat (finite 14272476608044879822203050197581256896544768)
          (finite 8810171008270270662577857732592293942132736) SgBlackWhite.SG_BLACK
          (finite (2 ^ 149)) = finite v1
      ∧ EvaluateBoardFloat (finite 14272476608044879822203050197581256896544768)
          (finite 8810171008270270662577857732592293942132736) SgBlackWhite.SG_BLACK
          (finite (-2 ^ 149)) = finite v2
      ∧ |v1 + v2 - 2 ^ 149| ≤ 2 ^ 126)
    ∧ EvaluateBoardFloat (finite 14272476608044879822203050197581256896544768)
        (finite 8810171008270270662577857732592293942132736) SgBlackWhite.SG_BLACK (finite 0)
        = finite 14272476608044879822203050197581256896544768 :=
  have h := EvaluateBoardFloat_complementary 14272476608044879822203050197581256896544768
    8810171008270270662577857732592293942132736 (2 ^ 149) SgBlackWhite.SG_BLACK
    (by norm_num) (by norm_num) (by decide!) round_of_one (by norm_num) (by norm_num)
    (by decide!)
  ⟨h.1, h.2.2⟩

/-! ### `StartSearch` in binary32 -/

end GoUctGlobalSearchState

namespace SgListUtility

/-! ### Reverse and Intersection -/

/-- The push loop started on `acc` leaves the reversed list in front of `acc`. -/
theorem foldl_Push (list : SgList) : ∀ (acc : SgList),
    List.foldl (fun rev elt => SgList.Push rev elt) acc list = list.reverse ++ acc := by
  induction list with
  | nil => intro acc; rfl
  | cons x l ih =>
    intro acc
    simp only [List.foldl_cons, List.reverse_cons, List.append_assoc]
    rw [ih]
    rfl

/-- The list `rev` of `Reverse` is the reversed list. -/
theorem pushAll_eq_reverse (list : SgList) : pushAll list = list.reverse := by
  unfold pushAll
  rw [foldl_Push, List.append_nil]

/-- The content left by `Reverse` is the reversed list, the empty list included. -/
theorem Reverse_eq_reverse (list : SgList) : Reverse list = list.reverse := by
  unfold Reverse
  rw [pushAll_eq_reverse]
  cases list with
  | nil => rfl
  | cons x l =>
    have : SgList.NonEmpty (x :: l).reverse = true := by
      simp [SgList.NonEmpty]
    simp only [this, if_true]

/-- C24: `Reverse` replaces the list by its reversal: the result has the same length, its
`i`-th element is the element at `length - 1 - i` of the input, the empty list stays empty,
the two assertions of the function (old first element = last of the new list, old last
element = first of the new list) hold for every non-empty input, and applying `Reverse`
twice gives back the original list. -/
theorem Reverse_spec (list : SgList) :
    (Reverse list).length = list.length
    ∧ (∀ i, i < list.length → (Reverse list)[i]? = list[list.length - 1 - i]?)
    ∧ (list = [] → Reverse list = [])
    ∧ (list ≠ [] →
        ReverseAsserts list = true
        ∧ SgList.Top list = SgList.Tail (Reverse list)
        ∧ SgList.Tail list = SgList.Top (Reverse list))
    ∧ Reverse (Reverse list) = list := by
  have hT : SgList.Top list = SgList.Tail list.reverse := by
    simp [SgList.Top, SgList.Tail]
  have hL : SgList.Tail list = SgList.Top list.reverse := by
    simp [SgList.Top, SgList.Tail]
  refine ⟨?_, ?_, ?_, ?_, ?_⟩
  · rw [Reverse_eq_reverse, List.length_reverse]
  · intro i hi
    rw [Reverse_eq_reverse, List.getElem?_reverse hi]
  · intro h
    rw [h]
    rfl
  · intro _
    refine ⟨?_, ?_, ?_⟩
    · unfold ReverseAsserts
      rw [pushAll_eq_reverse]
      simp [hT, hL]
    · rw [Reverse_eq_reverse]; exact hT
    · rw [Reverse_eq_reverse]; exact hL
  · rw [Reverse_eq_reverse, Reverse_eq_reverse, List.reverse_reverse]

/-- C24 (witness): reversing the list 1, 2, 3 gives 3, 2, 1, with both assertions true. -/
theorem Reverse_spec_witness :
    Reverse [1, 2, 3] = [3, 2, 1]
    ∧ ReverseAsserts [1, 2, 3] = true
    ∧ Reverse (Reverse [1, 2, 3]) = [1, 2, 3] :=
  ⟨by decide, ((Reverse_spec [1, 2, 3]).2.2.2.1 (by decide)).1, (Reverse_spec [1, 2, 3]).2.2.2.2⟩

/-- The append loop of `Intersection` started on `acc` adds the kept elements in order. -/
theorem foldl_Append (list2 : SgList) (list : SgList) : ∀ (acc : SgList),
    List.foldl
        (fun newList elt =>
          if SgList.Contains list2 elt then SgList.Append newList elt else newList)
        acc list
      = acc ++ list.filter (fun elt => SgList.Contains list2 elt) := by
  induction list with
  | nil => intro acc; simp
  | cons x l ih =>
    intro acc
    simp only [List.foldl_cons]
    rw [ih]
    by_cases h : SgList.Contains list2 x = true
    · simp [h, List.filter_cons, SgList.Append]
    · simp [h, List.filter_cons]

/-- C25: after `Intersection(l, l2)` the list `l` holds exactly its own elements that occur
in `l2`: it is the subsequence of the original `l` of those elements, in their original
order and with the number of occurrences each has in `l`; `l2` is unchanged; and a second
`Intersection` with the same `l2` changes nothing. -/
theorem Intersection_spec (l l2 : SgList) :
    (Intersection l l2).1 = l.filter (fun elt => decide (elt ∈ l2))
    ∧ List.Sublist (Intersection l l2).1 l
    ∧ (∀ elt, elt ∈ (Intersection l l2).1 ↔ elt ∈ l ∧ elt ∈ l2)
    ∧ (∀ elt, elt ∈ l2 → List.count elt (Intersection l l2).1 = List.count elt l)
    ∧ (∀ elt, ¬ elt ∈ l2 → List.count elt (Intersection l l2).1 = 0)
    ∧ (Intersection l l2).2 = l2
    ∧ Intersection (Intersection l l2).1 (Intersection l l2).2 = Intersection l l2 := by
  have e : ∀ l : SgList, (Intersection l l2).1 = l.filter (fun elt => decide (elt ∈ l2)) := by
    intro l
    unfold Intersection
    simp only [foldl_Append, List.nil_append]
    rfl
  refine ⟨e l, ?_, ?_, ?_, ?_, rfl, ?_⟩
  · rw [e]
    exact List.filter_sublist l
  · intro elt
    rw [e, List.mem_filter]
    simp
  · intro elt h
    rw [e]
    exact List.count_filter (by simpa using h)
  · intro elt h
    rw [e, List.count_eq_zero]
    intro hm
    rw [List.mem_filter] at hm
    exact h (by simpa using hm.2)
  · have h2 : (Intersection l l2).2 = l2 := rfl
    rw [h2]
    apply Prod.ext
    · rw [e, e, List.filter_filter]
      congr 1
      funext elt
      simp
    · rfl

end SgListUtility

end GoUct
